import Mathlib

/-!
Shallow embedding of the core of the uav-rc-xapp repository:

* src/xapps/uav-policy/src/uav_policy/policy_engine.py
  (data model, find_active_segment, estimate_required_prb,
   path_aware_rc_policy)
* src/nonrt/uav-path-planner/src/uav_path_planner/planner.py
  (Waypoint, CellMetric, RadioMap, PlannerConfig, _choose_cells_dp,
   _compress_to_segments, policy_to_dict, policy_from_dict)

Modelling conventions:
* Python float values that are only compared, added, multiplied and
  divided are modelled as rationals; the PRB estimator, which uses
  log2 and real exponentiation, is modelled over the reals.
* Python dicts are modelled as association lists in insertion order
  (Python dicts preserve insertion order); the dict-key-uniqueness
  invariant appears as explicit Nodup hypotheses where needed.
* Raising code is modelled with Except; Python max over an ordered
  collection (first maximal element wins) is modelled by a fold that
  only replaces the accumulator on strict improvement.
-/

namespace UavRc

/-- Minimal UAV state used by the policy engine (policy_engine.py). -/
structure UavState where
  uav_id : String
  x : ℚ
  y : ℚ
  z : ℚ
  slice_id : Option String := none
  path_position : Option ℚ := none
  deriving DecidableEq

/-- Per-UAV view of the radio environment at a given time step. -/
structure RadioSnapshot where
  serving_cell_id : String
  neighbor_cell_ids : List String
  rsrp_serving : ℚ
  rsrp_best_neighbor : ℚ
  prb_utilization_serving : ℚ
  prb_utilization_slice : Option ℚ := none
  deriving DecidableEq

/-- Planned serving cell and resource profile for a path segment. -/
structure PathSegmentPlan where
  start_pos : ℚ
  end_pos : ℚ
  planned_cell_id : String
  slice_id : String
  base_prb_quota : ℤ
  deriving DecidableEq

/-- Offline-derived flight-plan policy for a single UAV. -/
structure FlightPlanPolicy where
  uav_id : String
  segments : List PathSegmentPlan
  deriving DecidableEq

/-- QoS profile for a UAV service. -/
structure ServiceProfile where
  name : String
  target_bitrate_mbps : ℚ
  min_sinr_db : ℚ := 0
  deriving DecidableEq

/-- High-level decision about how to treat this UAV.  The source declares
prb_quota as Optional[int] but path_aware_rc_policy always assigns an int,
so it is modelled as an integer. -/
structure ResourceDecision where
  uav_id : String
  target_cell_id : String
  slice_id : Option String
  prb_quota : ℤ
  reason : String

/-- Return the active path segment for a given path position
(find_active_segment in policy_engine.py): the first segment whose
half-open interval contains the position, otherwise the last segment
when any segment exists, otherwise none. -/
def find_active_segment (plan : FlightPlanPolicy) (path_position : ℚ) :
    Option PathSegmentPlan :=
  match plan.segments.find?
      (fun seg => decide (seg.start_pos ≤ path_position ∧ path_position < seg.end_pos)) with
  | some seg => some seg
  | none => plan.segments.getLast?

/-- Python list subscription xs[0]: raises IndexError on an empty list. -/
def pyIndexZero {α : Type} : List α → Except String α
  | [] => .error "IndexError: list index out of range"
  | x :: _ => .ok x

/-- Estimate the PRB count needed for a target bitrate
(estimate_required_prb in policy_engine.py), translated line by line:
clamp the SINR at -10 dB, convert to linear SNR, take the Shannon
spectral efficiency, and divide the target bitrate by the per-PRB
throughput, rounding up and flooring the result at 1. -/
noncomputable def estimate_required_prb
    (target_bitrate_mbps sinr_db prb_bandwidth_hz : ℝ) : ℤ :=
  let sinr_db' : ℝ := if sinr_db < -10 then -10 else sinr_db
  let sinr_linear : ℝ := (10 : ℝ) ^ (sinr_db' / 10)
  let se_bps_per_hz : ℝ := Real.logb 2 (1 + sinr_linear)
  if se_bps_per_hz ≤ 0 then 1
  else
    let throughput_per_prb_mbps : ℝ := se_bps_per_hz * prb_bandwidth_hz / 1000000
    if throughput_per_prb_mbps ≤ 0 then 1
    else max 1 ⌈target_bitrate_mbps / throughput_per_prb_mbps⌉

/-- Modelled from the spec: the PRB estimator as described in section 4.3
of the specification, to be compared with estimate_required_prb.  Clamp
the SINR to a floor of -10 dB, convert to linear SNR, compute spectral
efficiency log2(1 + snrLinear); if that is not positive return 1, else
return ceil(targetBitrateMbps / perPrbThroughput) floored at 1. -/
noncomputable def estimateRequiredPrbSpec
    (target_bitrate_mbps sinr_db prb_bandwidth_hz : ℝ) : ℤ :=
  let clamped : ℝ := max sinr_db (-10)
  let efficiency : ℝ := Real.logb 2 (1 + (10 : ℝ) ^ (clamped / 10))
  if efficiency ≤ 0 then 1
  else max 1 ⌈target_bitrate_mbps / (efficiency * prb_bandwidth_hz / 1000000)⌉

/-- Active-segment computation at the top of path_aware_rc_policy: only
when both a plan and a path position are present is the segment lookup
performed. -/
def activeSegOf (plan : Option FlightPlanPolicy) (path_position : Option ℚ) :
    Option PathSegmentPlan :=
  match plan, path_position with
  | some pl, some pos => find_active_segment pl pos
  | _, _ => none

/-- Target-cell selection block of path_aware_rc_policy (policy_engine.py,
the branch over active_seg).  Returns the target cell and the reason
clauses accumulated so far; an error models the IndexError a Python list
subscription would raise (the subscription is guarded by the neighbor
non-emptiness conjunct, exactly as in the source). -/
def selectTargetCell (active_seg : Option PathSegmentPlan) (radio : RadioSnapshot)
    (overloaded_threshold : ℚ) (hysteresis_db : ℚ) :
    Except String (String × List String) :=
  match active_seg with
  | some seg =>
    if seg.planned_cell_id ≠ radio.serving_cell_id then
      if overloaded_threshold < radio.prb_utilization_serving then
        if radio.rsrp_serving + hysteresis_db < radio.rsrp_best_neighbor then
          Except.ok (seg.planned_cell_id,
            ["Follow flight-plan cell; serving overloaded and neighbor stronger."])
        else
          Except.ok (radio.serving_cell_id,
            ["Flight-plan suggests different cell but neighbor not clearly better; stay on serving."])
      else
        Except.ok (radio.serving_cell_id,
          ["Flight-plan suggests different cell but serving not overloaded; stay on serving for stability."])
    else
      Except.ok (radio.serving_cell_id, ["Serving cell matches flight-plan segment."])
  | none =>
    if overloaded_threshold < radio.prb_utilization_serving ∧
        radio.rsrp_serving + hysteresis_db < radio.rsrp_best_neighbor ∧
        radio.neighbor_cell_ids ≠ [] then
      match pyIndexZero radio.neighbor_cell_ids with
      | .error e => .error e
      | .ok nb =>
        Except.ok (nb,
          ["No active flight-plan segment; using reactive policy only.",
           "Reactive handover: serving overloaded (util=" ++
             toString radio.prb_utilization_serving ++ "), neighbor stronger by " ++
             toString (radio.rsrp_best_neighbor - radio.rsrp_serving) ++ " dB."])
    else
      Except.ok (radio.serving_cell_id,
        ["No active flight-plan segment; using reactive policy only.",
         "Staying on serving cell (not overloaded or neighbors not clearly better)."])

/-- Path-aware RC policy (path_aware_rc_policy in policy_engine.py).
The only Python operation in it that can raise is the neighbor list
subscription, modelled through pyIndexZero inside Except; everything
else is a direct translation.  Reason strings keep the source wording,
with numeric interpolation rendered through toString. -/
noncomputable def path_aware_rc_policy
    (uav : UavState) (radio : RadioSnapshot)
    (plan : Option FlightPlanPolicy) (service : Option ServiceProfile)
    (overloaded_threshold : ℚ) (hysteresis_db : ℚ)
    (min_prb_quota : ℤ) (max_prb_quota : ℤ) :
    Except String ResourceDecision :=
  let active_seg : Option PathSegmentPlan := activeSegOf plan uav.path_position
  match selectTargetCell active_seg radio overloaded_threshold hysteresis_db with
  | .error e => .error e
  | .ok (target_cell, reason_parts) =>
  let target_slice : Option String :=
    match uav.slice_id with
    | some s => some s
    | none =>
      match active_seg with
      | some seg => some seg.slice_id
      | none => none
  let slice_parts : List String :=
    match uav.slice_id with
    | some _ => ["Using UAV slice_id."]
    | none =>
      match active_seg with
      | some seg => ["Using slice from flight-plan segment: " ++ seg.slice_id ++ "."]
      | none => ["No slice info; leaving slice_id unset."]
  let base_quota : ℤ :=
    match active_seg with
    | some seg => seg.base_prb_quota
    | none => min_prb_quota
  let sinr_for_estimation : ℚ :=
    if target_cell = radio.serving_cell_id then radio.rsrp_serving
    else radio.rsrp_best_neighbor
  let required_quota : ℤ :=
    match service with
    | some svc =>
      max (estimate_required_prb (svc.target_bitrate_mbps : ℝ)
        (sinr_for_estimation : ℝ) 180000) base_quota
    | none => base_quota
  let service_parts : List String :=
    match service with
    | some svc =>
      ["Service targets " ++ toString svc.target_bitrate_mbps ++
        " Mbps; estimated required PRB quota computed from the SINR proxy."]
    | none => ["No ServiceProfile provided; using base quota from flight-plan or default."]
  let prb_quota : ℤ := max min_prb_quota (min required_quota max_prb_quota)
  Except.ok
    { uav_id := uav.uav_id
      target_cell_id := target_cell
      slice_id := target_slice
      prb_quota := prb_quota
      reason := String.intercalate " " (reason_parts ++ slice_parts ++ service_parts) }

/-- Discretized waypoint along a UAV path (planner.py). -/
structure Waypoint where
  index : ℤ
  x : ℚ
  y : ℚ
  z : ℚ
  deriving DecidableEq

/-- Radio metric for a cell at a given waypoint. -/
structure CellMetric where
  sinr_db : ℚ
  load : ℚ
  deriving DecidableEq

/-- Association-list lookup modelling Python dict subscription. -/
def alookup {α β : Type} [DecidableEq α] (k : α) : List (α × β) → Option β
  | [] => none
  | kv :: rest => if kv.1 = k then some kv.2 else alookup k rest

/-- Radio map indexed by waypoint index and cell id; each dict is an
association list in insertion order. -/
structure RadioMap where
  metrics : List (ℤ × List (String × CellMetric))

/-- Lookup of metrics.get(step, dict()) in planner.py. -/
def RadioMap.get_cells_for_step (rm : RadioMap) (step : ℤ) :
    List (String × CellMetric) :=
  (alookup step rm.metrics).getD []

/-- Configuration and utility parameters for the DP planner. -/
structure PlannerConfig where
  sinr_min_db : ℚ := -5
  w_sinr : ℚ := 1
  w_load : ℚ := 1/2
  ho_penalty : ℚ := 1/2
  deriving DecidableEq

/-- Utility of serving a cell: rewards SINR margin above the floor and
penalizes load (PlannerConfig.utility in planner.py). -/
def PlannerConfig.utility (c : PlannerConfig) (sinr_db load : ℚ) : ℚ :=
  c.w_sinr * (sinr_db - c.sinr_min_db) - c.w_load * load

/-- Step of Python max over an ordered collection: the accumulator is
replaced only on strict improvement, so the first maximal element wins. -/
def qmaxStep {α : Type} (f : α → ℚ) (best y : α) : α :=
  if f best < f y then y else best

/-- Python max(xs, key f): None on the empty list. -/
def pyMaxBy {α : Type} (f : α → ℚ) : List α → Option α
  | [] => none
  | x :: xs => some (xs.foldl (qmaxStep f) x)

/-- Candidate cells of one step: the cells meeting the SINR floor, or,
when that filter is empty, the single best-SINR cell (fallback branch
of _choose_cells_dp in planner.py). -/
def candidatesForStep (cfg : PlannerConfig)
    (cell_metrics : List (String × CellMetric)) : List (String × CellMetric) :=
  let cands := cell_metrics.filter (fun kv => decide (cfg.sinr_min_db ≤ kv.2.sinr_db))
  if cands = [] then
    match pyMaxBy (fun kv => kv.2.sinr_db) cell_metrics with
    | none => []
    | some kv => [kv]
  else cands

/-- Errors of the planner: the two ValueError raises for missing radio
data (carrying the offending waypoint index) and the assert / dict
KeyError failure modes, which are proved unreachable. -/
inductive PlanError where
  | missingRadio (step : ℤ)
  | assertionFailed
  deriving DecidableEq

/-- One DP state entry: cell id with (cumulative score, predecessor). -/
abbrev DpEntry := String × ℚ × Option String

/-- Initial DP row: each first-step candidate scored by its utility with
no predecessor (dp0 in _choose_cells_dp). -/
def dpInit (cfg : PlannerConfig) (cands : List (String × CellMetric)) :
    List DpEntry :=
  cands.map (fun kv => (kv.1, cfg.utility kv.2.sinr_db kv.2.load, (none : Option String)))

/-- Transition score into a candidate cell from a previous DP entry:
previous score plus utility, minus the handover penalty when the cell
changes (inner loop body of _choose_cells_dp). -/
def transScore (cfg : PlannerConfig) (prev_cell : String) (prev_score : ℚ)
    (cell_id : String) (met : CellMetric) : ℚ :=
  let score := prev_score + cfg.utility met.sinr_db met.load
  if prev_cell ≠ cell_id then score - cfg.ho_penalty else score

/-- Best incoming transition for one candidate: Python max over the
previous DP row, returning (score, best previous cell); none exactly
when the previous row is empty (where the source assert would fire). -/
def bestIncoming (cfg : PlannerConfig) (prev_dp : List DpEntry)
    (cell_id : String) (met : CellMetric) : Option (ℚ × String) :=
  match prev_dp.map (fun e => (transScore cfg e.1 e.2.1 cell_id met, e.1)) with
  | [] => none
  | x :: xs => some (xs.foldl (qmaxStep Prod.fst) x)

/-- Next DP row from the previous row and this step's candidates. -/
def dpNext (cfg : PlannerConfig) (prev_dp : List DpEntry) :
    List (String × CellMetric) → Except PlanError (List DpEntry)
  | [] => .ok []
  | kv :: rest =>
    match bestIncoming cfg prev_dp kv.1 kv.2 with
    | none => .error .assertionFailed
    | some (s, pc) =>
      match dpNext cfg prev_dp rest with
      | .error e => .error e
      | .ok es => .ok ((kv.1, s, some pc) :: es)

/-- All DP rows produced from an initial row over the remaining steps
(dp_states in _choose_cells_dp). -/
def dpFrom (cfg : PlannerConfig) (cur : List DpEntry) :
    List (List (String × CellMetric)) → Except PlanError (List (List DpEntry))
  | [] => .ok [cur]
  | c :: cs =>
    match dpNext cfg cur c with
    | .error e => .error e
    | .ok nxt =>
      match dpFrom cfg nxt cs with
      | .error e => .error e
      | .ok rest => .ok (cur :: rest)

/-- Candidate levels for each step, raising the missing-radio-data
ValueError on the first step whose cell dict is absent or empty
(the two raise sites in _choose_cells_dp, checked in step order). -/
def buildLevels (rm : RadioMap) (cfg : PlannerConfig) :
    List ℤ → Except PlanError (List (List (String × CellMetric)))
  | [] => .ok []
  | step :: rest =>
    if rm.get_cells_for_step step = [] then .error (.missingRadio step)
    else
      match buildLevels rm cfg rest with
      | .error e => .error e
      | .ok ls => .ok (candidatesForStep cfg (rm.get_cells_for_step step) :: ls)

/-- Backtracking loop of _choose_cells_dp: the argument list holds the
DP rows from the last one down to row 1; each lookup follows the stored
predecessor pointer.  Lookup or pointer failures model the dict KeyError
and the assert in the source. -/
def backtrackAux : List (List DpEntry) → String → Except PlanError (List String)
  | [], c => .ok [c]
  | lvl :: rest, c =>
    match alookup c lvl with
    | none => .error .assertionFailed
    | some (_, none) => .error .assertionFailed
    | some (_, some p) =>
      match backtrackAux rest p with
      | .error e => .error e
      | .ok cs => .ok (cs ++ [c])

/-- Waypoints sorted by index (sorted(waypoints, key index)). -/
def sortByIndex (ws : List Waypoint) : List Waypoint :=
  List.insertionSort (fun a b => a.index ≤ b.index) ws

/-- Dynamic programming over waypoints to choose a serving cell per step
(_choose_cells_dp in planner.py): sort waypoints by index, build each
step's candidate set (raising on missing radio data), run the DP
recurrence, pick the best final cell with Python max, and backtrack. -/
def choose_cells_dp (waypoints : List Waypoint) (radio_map : RadioMap)
    (config : PlannerConfig) : Except PlanError (List String) :=
  match buildLevels radio_map config ((sortByIndex waypoints).map Waypoint.index) with
  | .error e => .error e
  | .ok [] => .ok []
  | .ok (c0 :: rest) =>
    match dpFrom config (dpInit config c0) rest with
    | .error e => .error e
    | .ok levels =>
      match levels.getLast? with
      | none => .error .assertionFailed
      | some last_dp =>
        match pyMaxBy (fun e => e.2.1) last_dp with
        | none => .error .assertionFailed
        | some lastE => backtrackAux levels.tail.reverse lastE.1

/-- Candidate levels of the sorted waypoints, used to state what the DP
optimizes over: at each step the cells with sinr_db at or above the
floor, or the single best-SINR cell when that filter is empty. -/
def candLevels (rm : RadioMap) (cfg : PlannerConfig) (ws : List Waypoint) :
    List (List (String × CellMetric)) :=
  ws.map (fun w => candidatesForStep cfg (rm.get_cells_for_step w.index))

/-- Score contribution of one step given the previous cell: the utility
of the chosen cell minus the handover penalty when the cell changes. -/
def stepScore (cfg : PlannerConfig) (prev_cell : String)
    (kv : String × CellMetric) : ℚ :=
  cfg.utility kv.2.sinr_db kv.2.load - (if kv.1 ≠ prev_cell then cfg.ho_penalty else 0)

/-- Cumulative score of the remaining steps of a cell sequence, given
the previously serving cell. -/
def pathScoreFrom (cfg : PlannerConfig) (prev_cell : String) :
    List (String × CellMetric) → ℚ
  | [] => 0
  | kv :: rest => stepScore cfg prev_cell kv + pathScoreFrom cfg kv.1 rest

/-- Cumulative score of a full cell sequence: sum over steps of the
utility of the chosen cell, minus ho_penalty for each step whose cell
differs from the previous step's cell. -/
def pathScore (cfg : PlannerConfig) : List (String × CellMetric) → ℚ
  | [] => 0
  | kv :: rest => cfg.utility kv.2.sinr_db kv.2.load + pathScoreFrom cfg kv.1 rest

/-- Last chosen cell of a sequence, with a default for the empty one. -/
def lastCellFrom (c : String) : List (String × CellMetric) → String
  | [] => c
  | kv :: rest => lastCellFrom kv.1 rest

/-- Python int() truncation toward zero on a rational. -/
def pyInt (q : ℚ) : ℤ := if q < 0 then -⌊-q⌋ else ⌊q⌋

/-- Run of consecutive waypoints sharing one chosen cell:
(first waypoint, last waypoint, cell id). -/
abbrev CellRun := Waypoint × Waypoint × String

/-- Scan of the grouping loop in _compress_to_segments: startW and lastW
are the current run's first and latest waypoint, c its cell. -/
def groupRunsGo (startW lastW : Waypoint) (c : String) :
    List (Waypoint × String) → List CellRun
  | [] => [(startW, lastW, c)]
  | (w, c') :: rest =>
    if c' = c then groupRunsGo startW w c rest
    else (startW, lastW, c) :: groupRunsGo w w c' rest

/-- Maximal runs of consecutive equal cells along the waypoint list. -/
def groupRuns : List (Waypoint × String) → List CellRun
  | [] => []
  | (w, c) :: rest => groupRunsGo w w c rest

/-- Segment built from one run (add_segment in _compress_to_segments);
nudge is true exactly on the final segment, whose end position is pushed
up by 1e-9 and clamped to 1. -/
def runToSeg (norm : ℚ) (slice : String) (quota : ℤ) (nudge : Bool)
    (r : CellRun) : PathSegmentPlan :=
  { start_pos := (r.1.index : ℚ) / norm
    end_pos :=
      if nudge then min 1 ((r.2.1.index : ℚ) / norm + 1/1000000000)
      else (r.2.1.index : ℚ) / norm
    planned_cell_id := r.2.2
    slice_id := slice
    base_prb_quota := quota }

/-- Segments of all runs, nudging only the last one (in the source the
nudge condition end_idx = n-1 holds exactly for the final run). -/
def segsOfRuns (norm : ℚ) (slice : String) (quota : ℤ) :
    List CellRun → List PathSegmentPlan
  | [] => []
  | [r] => [runToSeg norm slice quota true r]
  | r :: rs => runToSeg norm slice quota false r :: segsOfRuns norm slice quota rs

/-- Compression of a per-waypoint cell sequence into a FlightPlanPolicy
(_compress_to_segments in planner.py): sort waypoints, pair them with
their chosen cells, merge consecutive equal cells into segments with
positions normalized by max(1, n-1), and nudge the final end position. -/
def compress_to_segments (uav_id : String) (waypoints : List Waypoint)
    (cells : List String) (service : ServiceProfile) : FlightPlanPolicy :=
  if waypoints = [] ∨ cells = [] then { uav_id := uav_id, segments := [] }
  else
    let ws := sortByIndex waypoints
    let n := ws.length
    let norm : ℚ := ((max 1 (n - 1) : ℕ) : ℚ)
    let base_quota : ℤ := max 5 (pyInt service.target_bitrate_mbps)
    { uav_id := uav_id
      segments := segsOfRuns norm service.name base_quota (groupRuns (ws.zip cells)) }

/-- Serializable record of one segment (the per-segment dict produced by
policy_to_dict in planner.py). -/
structure SegmentRecord where
  start_pos : ℚ
  end_pos : ℚ
  planned_cell_id : String
  slice_id : String
  base_prb_quota : ℤ
  deriving DecidableEq

/-- Serializable record of a whole policy (the dict produced by
policy_to_dict: a uav_id field and a list of segment records). -/
structure PolicyRecord where
  uav_id : String
  segments : List SegmentRecord
  deriving DecidableEq

/-- Serialize FlightPlanPolicy to a plain record (policy_to_dict). -/
def policy_to_dict (policy : FlightPlanPolicy) : PolicyRecord :=
  { uav_id := policy.uav_id
    segments := policy.segments.map (fun s =>
      { start_pos := s.start_pos
        end_pos := s.end_pos
        planned_cell_id := s.planned_cell_id
        slice_id := s.slice_id
        base_prb_quota := s.base_prb_quota }) }

/-- Deserialize FlightPlanPolicy from a record (policy_from_dict). -/
def policy_from_dict (data : PolicyRecord) : FlightPlanPolicy :=
  { uav_id := data.uav_id
    segments := data.segments.map (fun s =>
      { start_pos := s.start_pos
        end_pos := s.end_pos
        planned_cell_id := s.planned_cell_id
        slice_id := s.slice_id
        base_prb_quota := s.base_prb_quota }) }

/-- Spectral efficiency computed by the estimator for a given SINR. -/
noncomputable def seOf (sinr_db : ℝ) : ℝ :=
  Real.logb 2 (1 + (10 : ℝ) ^ ((if sinr_db < -10 then (-10 : ℝ) else sinr_db) / 10))

/-- Pointwise relation between a candidate list and the DP row dpNext
produces from it. -/
def DpNextRel (cfg : PlannerConfig) (prev : List DpEntry)
    (kv : String × CellMetric) (e : DpEntry) : Prop :=
  ∃ s pc, bestIncoming cfg prev kv.1 kv.2 = some (s, pc) ∧ e = (kv.1, s, some pc)

/-! Helper lemmas about the PRB estimator. -/

lemma seOf_pos (s : ℝ) : 0 < seOf s := by
  have h10 : (0 : ℝ) < (10 : ℝ) ^ ((if s < -10 then (-10 : ℝ) else s) / 10) :=
    Real.rpow_pos_of_pos (by norm_num) _
  exact Real.logb_pos (by norm_num) (by linarith)

lemma seOf_mono {s1 s2 : ℝ} (h : s1 ≤ s2) : seOf s1 ≤ seOf s2 := by
  unfold seOf
  have hc : (if s1 < -10 then (-10 : ℝ) else s1) ≤ (if s2 < -10 then (-10 : ℝ) else s2) := by
    rcases lt_or_le s1 (-10) with h1 | h1 <;> rcases lt_or_le s2 (-10) with h2 | h2
    · simp [h1, h2]
    · simp only [if_pos h1, if_neg (not_lt.mpr h2)]; exact h2
    · exact absurd (lt_of_le_of_lt h h2) (not_lt.mpr h1)
    · simp only [if_neg (not_lt.mpr h1), if_neg (not_lt.mpr h2)]; exact h
  have hr : (10 : ℝ) ^ ((if s1 < -10 then (-10 : ℝ) else s1) / 10) ≤
      (10 : ℝ) ^ ((if s2 < -10 then (-10 : ℝ) else s2) / 10) := by
    apply (Real.rpow_le_rpow_left_iff (by norm_num : (1:ℝ) < 10)).mpr
    linarith
  have h1pos : (0 : ℝ) < 1 + (10 : ℝ) ^ ((if s1 < -10 then (-10 : ℝ) else s1) / 10) := by
    have := Real.rpow_pos_of_pos (show (0:ℝ) < 10 by norm_num)
        ((if s1 < -10 then (-10 : ℝ) else s1) / 10)
    linarith
  exact Real.logb_le_logb_of_le (by norm_num) h1pos (by linarith)

/-- Closed form of the estimator for a positive bandwidth: the spectral
efficiency is always positive, so both early-return guards are dead and
the result is the ceiling of bitrate over per-PRB throughput, floored
at one. -/
lemma estimate_required_prb_eq (b s bw : ℝ) (hbw : 0 < bw) :
    estimate_required_prb b s bw = max 1 ⌈b / (seOf s * bw / 1000000)⌉ := by
  unfold estimate_required_prb
  have hse : 0 < seOf s := seOf_pos s
  have hth : 0 < seOf s * bw / 1000000 := by positivity
  rw [if_neg (not_le.mpr (by simpa [seOf] using hse)),
    if_neg (not_le.mpr (by simpa [seOf] using hth))]
  rfl

/-- C6: for every target bitrate and SINR input (and positive PRB
bandwidth, covering the 180 kHz default), estimate_required_prb follows
the spec's description — clamp the SINR at the -10 dB floor, take the
Shannon spectral efficiency log2(1 + snrLinear), return 1 when it is
not positive, otherwise the ceiling of bitrate over per-PRB throughput
floored at 1 — and the result is always an integer at least 1. -/
theorem C6_estimator_contract (b s bw : ℝ) (hbw : 0 < bw) :
    estimate_required_prb b s bw = estimateRequiredPrbSpec b s bw ∧
      1 ≤ estimate_required_prb b s bw := by
  constructor
  · have hclamp : (if s < -10 then (-10 : ℝ) else s) = max s (-10) := by
      rcases lt_or_le s (-10) with h | h
      · rw [if_pos h, max_eq_right h.le]
      · rw [if_neg (not_lt.mpr h), max_eq_left h]
    have hspec : estimateRequiredPrbSpec b s bw = max 1 ⌈b / (seOf s * bw / 1000000)⌉ := by
      unfold estimateRequiredPrbSpec
      have hse : 0 < seOf s := seOf_pos s
      rw [if_neg (not_le.mpr (by simpa [seOf, hclamp] using hse))]
      simp only [seOf, hclamp]
    rw [estimate_required_prb_eq b s bw hbw, hspec]
  · rw [estimate_required_prb_eq b s bw hbw]
    exact le_max_left 1 _

/-- C6 witness at a concrete input. -/
theorem C6_witness :
    estimate_required_prb 10 0 180000 = estimateRequiredPrbSpec 10 0 180000 ∧
      1 ≤ estimate_required_prb 10 0 180000 :=
  C6_estimator_contract 10 0 180000 (by norm_num)

/-- C7: for a fixed positive PRB bandwidth, the estimator is
non-decreasing in the target bitrate at fixed SINR and non-increasing in
the SINR (at or above the -10 dB floor) at fixed bitrate. -/
theorem C7_estimator_monotone (b b1 b2 s s1 s2 bw : ℝ) (hbw : 0 < bw) :
    (b1 ≤ b2 → estimate_required_prb b1 s bw ≤ estimate_required_prb b2 s bw) ∧
    (-10 ≤ s1 → s1 ≤ s2 → estimate_required_prb b s2 bw ≤ estimate_required_prb b s1 bw) := by
  constructor
  · intro hb
    rw [estimate_required_prb_eq b1 s bw hbw, estimate_required_prb_eq b2 s bw hbw]
    have ht : 0 < seOf s * bw / 1000000 := by have := seOf_pos s; positivity
    exact max_le_max (le_refl 1) (Int.ceil_mono ((div_le_div_iff_of_pos_right ht).mpr hb))
  · intro _ hs
    rw [estimate_required_prb_eq b s1 bw hbw, estimate_required_prb_eq b s2 bw hbw]
    have ht1 : 0 < seOf s1 * bw / 1000000 := by have := seOf_pos s1; positivity
    have ht2 : 0 < seOf s2 * bw / 1000000 := by have := seOf_pos s2; positivity
    have hle : seOf s1 * bw / 1000000 ≤ seOf s2 * bw / 1000000 := by
      have := seOf_mono hs
      have hb' : seOf s1 * bw ≤ seOf s2 * bw := by nlinarith
      linarith
    rcases le_or_lt 0 b with hb0 | hb0
    · refine max_le_max (le_refl 1) (Int.ceil_mono ?_)
      exact div_le_div_of_nonneg_left hb0 ht1 hle
    · have h1 : ⌈b / (seOf s1 * bw / 1000000)⌉ ≤ 0 :=
        Int.ceil_le.mpr (by
          push_cast
          exact div_nonpos_of_nonpos_of_nonneg hb0.le ht1.le)
      have h2 : ⌈b / (seOf s2 * bw / 1000000)⌉ ≤ 0 :=
        Int.ceil_le.mpr (by
          push_cast
          exact div_nonpos_of_nonpos_of_nonneg hb0.le ht2.le)
      rw [max_eq_left (le_trans h2 (by norm_num)), max_eq_left (le_trans h1 (by norm_num))]

/-- C7 witness at concrete inputs. -/
theorem C7_witness :
    ((1 : ℝ) ≤ 2 → estimate_required_prb 1 5 180000 ≤ estimate_required_prb 2 5 180000) ∧
    ((-10 : ℝ) ≤ 0 → (0 : ℝ) ≤ 3 → estimate_required_prb 7 3 180000 ≤ estimate_required_prb 7 0 180000) :=
  C7_estimator_monotone 7 1 2 5 0 3 180000 (by norm_num)

/-- C8: deserializing the serialized record of any FlightPlanPolicy
reproduces it exactly, with equal uav_id and segment-by-segment equality
of all five fields. -/
theorem C8_policy_round_trip (policy : FlightPlanPolicy) :
    policy_from_dict (policy_to_dict policy) = policy := by
  cases policy with
  | mk uid segs =>
    unfold policy_to_dict policy_from_dict
    simp only [List.map_map, FlightPlanPolicy.mk.injEq, true_and]
    induction segs with
    | nil => rfl
    | cons s rest ih => cases s; simpa using ih

/-- C10: whenever no segment's half-open interval contains the path
position — including positions below the first segment's start, such as
negative positions — find_active_segment returns the last segment, and
for an empty segments list it returns none (getLast? of the empty list). -/
theorem C10_fallback_last_segment (plan : FlightPlanPolicy) (p : ℚ)
    (h : ∀ seg ∈ plan.segments, ¬ (seg.start_pos ≤ p ∧ p < seg.end_pos)) :
    find_active_segment plan p = plan.segments.getLast? := by
  unfold find_active_segment
  have hf : plan.segments.find?
      (fun seg => decide (seg.start_pos ≤ p ∧ p < seg.end_pos)) = none := by
    apply List.find?_eq_none.mpr
    intro seg hseg
    simpa using h seg hseg
  rw [hf]

/-- C10 witness: a negative path position below a single segment
starting at 2 falls back to that (last) segment. -/
theorem C10_witness :
    find_active_segment ⟨"u", [⟨2, 3, "B", "s", 10⟩]⟩ (-1) =
      some ⟨2, 3, "B", "s", 10⟩ := by
  have h := C10_fallback_last_segment ⟨"u", [⟨2, 3, "B", "s", 10⟩]⟩ (-1)
    (by decide)
  simpa using h

/-! Helper lemmas about the decision policy. -/

lemma selectTargetCell_ok (a : Option PathSegmentPlan) (radio : RadioSnapshot)
    (thr hyst : ℚ) : ∃ t parts, selectTargetCell a radio thr hyst = Except.ok (t, parts) := by
  cases a with
  | some seg =>
    unfold selectTargetCell
    dsimp only
    by_cases h1 : seg.planned_cell_id ≠ radio.serving_cell_id
    · rw [if_pos h1]
      by_cases h2 : thr < radio.prb_utilization_serving
      · rw [if_pos h2]
        by_cases h3 : radio.rsrp_serving + hyst < radio.rsrp_best_neighbor
        · rw [if_pos h3]; exact ⟨_, _, rfl⟩
        · rw [if_neg h3]; exact ⟨_, _, rfl⟩
      · rw [if_neg h2]; exact ⟨_, _, rfl⟩
    · rw [if_neg h1]; exact ⟨_, _, rfl⟩
  | none =>
    unfold selectTargetCell
    dsimp only
    by_cases h : thr < radio.prb_utilization_serving ∧
        radio.rsrp_serving + hyst < radio.rsrp_best_neighbor ∧
        radio.neighbor_cell_ids ≠ []
    · rw [if_pos h]
      obtain ⟨-, -, hne⟩ := h
      cases hne2 : radio.neighbor_cell_ids with
      | nil => exact absurd hne2 hne
      | cons x xs => exact ⟨_, _, rfl⟩
    · rw [if_neg h]; exact ⟨_, _, rfl⟩

lemma activeSegOf_none (p : Option ℚ) : activeSegOf none p = none := by
  cases p <;> rfl

lemma pathAware_total (uav : UavState) (radio : RadioSnapshot)
    (plan : Option FlightPlanPolicy) (service : Option ServiceProfile)
    (thr hyst : ℚ) (minq maxq : ℤ) :
    ∃ d, path_aware_rc_policy uav radio plan service thr hyst minq maxq = Except.ok d := by
  unfold path_aware_rc_policy
  dsimp only
  obtain ⟨t, parts, heq⟩ := selectTargetCell_ok
    (activeSegOf plan uav.path_position) radio thr hyst
  rw [heq]
  exact ⟨_, rfl⟩

lemma pathAware_quota_shape (uav : UavState) (radio : RadioSnapshot)
    (plan : Option FlightPlanPolicy) (service : Option ServiceProfile)
    (thr hyst : ℚ) (minq maxq : ℤ) (d : ResourceDecision)
    (hd : path_aware_rc_policy uav radio plan service thr hyst minq maxq = Except.ok d) :
    ∃ req : ℤ, d.prb_quota = max minq (min req maxq) := by
  unfold path_aware_rc_policy at hd
  dsimp only at hd
  obtain ⟨t, parts, heq⟩ := selectTargetCell_ok
    (activeSegOf plan uav.path_position) radio thr hyst
  rw [heq] at hd
  dsimp only at hd
  have hrec := Except.ok.inj hd
  subst hrec
  exact ⟨_, rfl⟩

lemma pathAware_quota_noplan_nosvc (uav : UavState) (radio : RadioSnapshot)
    (thr hyst : ℚ) (minq maxq : ℤ) (d : ResourceDecision)
    (hd : path_aware_rc_policy uav radio none none thr hyst minq maxq = Except.ok d) :
    d.prb_quota = max minq (min minq maxq) := by
  unfold path_aware_rc_policy at hd
  dsimp only at hd
  rw [activeSegOf_none] at hd
  obtain ⟨t, parts, heq⟩ := selectTargetCell_ok
    (none : Option PathSegmentPlan) radio thr hyst
  rw [heq] at hd
  dsimp only at hd
  have hrec := Except.ok.inj hd
  subst hrec
  rfl

/-- C9: for every combination of well-typed inputs, path_aware_rc_policy
returns a ResourceDecision and never raises: the Except-typed embedding,
whose only error source is the guarded neighbor-list subscription, always
returns ok. -/
theorem C9_policy_total (uav : UavState) (radio : RadioSnapshot)
    (plan : Option FlightPlanPolicy) (service : Option ServiceProfile)
    (thr hyst : ℚ) (minq maxq : ℤ) :
    ∃ d, path_aware_rc_policy uav radio plan service thr hyst minq maxq = Except.ok d :=
  pathAware_total uav radio plan service thr hyst minq maxq

/-- C5 as stated is false: with min_prb_quota = 50 and max_prb_quota = 10
the returned quota is 50, violating the upper bound, because the final
clamp takes the max with the lower bound last. -/
theorem C5_counterexample :
    ∃ d, path_aware_rc_policy ⟨"u", 0, 0, 0, none, none⟩ ⟨"A", [], 0, 0, 0, none⟩
        none none (4/5) 3 50 10 = Except.ok d ∧ ¬ (d.prb_quota ≤ 10) := by
  obtain ⟨d, hd⟩ := pathAware_total ⟨"u", 0, 0, 0, none, none⟩ ⟨"A", [], 0, 0, 0, none⟩
    none none (4/5) 3 50 10
  refine ⟨d, hd, ?_⟩
  have hq := pathAware_quota_noplan_nosvc _ _ _ _ _ _ _ hd
  rw [hq]
  decide

/-- C5 amended: whenever min_prb_quota ≤ max_prb_quota (which holds for
the defaults 5 and 100), every returned decision's prb_quota lies in
[min_prb_quota, max_prb_quota]. -/
theorem C5_quota_bounds (uav : UavState) (radio : RadioSnapshot)
    (plan : Option FlightPlanPolicy) (service : Option ServiceProfile)
    (thr hyst : ℚ) (minq maxq : ℤ) (hq : minq ≤ maxq) :
    ∀ d, path_aware_rc_policy uav radio plan service thr hyst minq maxq = Except.ok d →
      minq ≤ d.prb_quota ∧ d.prb_quota ≤ maxq := by
  intro d hd
  obtain ⟨req, hreq⟩ := pathAware_quota_shape uav radio plan service thr hyst minq maxq d hd
  rw [hreq]
  exact ⟨le_max_left _ _, max_le hq (min_le_right _ _)⟩

/-- C5 witness at concrete inputs with the default quota bounds. -/
theorem C5_witness :
    ∃ d, path_aware_rc_policy ⟨"u", 0, 0, 0, none, none⟩ ⟨"A", ["B"], 0, 0, 0, none⟩
        none none (4/5) 3 5 100 = Except.ok d ∧ 5 ≤ d.prb_quota ∧ d.prb_quota ≤ 100 := by
  obtain ⟨d, hd⟩ := pathAware_total ⟨"u", 0, 0, 0, none, none⟩ ⟨"A", ["B"], 0, 0, 0, none⟩
    none none (4/5) 3 5 100
  exact ⟨d, hd, C5_quota_bounds _ _ _ _ _ _ _ _ (by decide) d hd⟩

/-- C2: when an active flight-plan segment exists and its planned cell
differs from the serving cell, the decision switches to the planned cell
exactly when the serving cell is overloaded and the best neighbor beats
the serving RSRP by more than the hysteresis; otherwise it stays on the
serving cell. -/
theorem C2_follow_plan_iff (uav : UavState) (radio : RadioSnapshot)
    (pl : FlightPlanPolicy) (service : Option ServiceProfile)
    (thr hyst : ℚ) (minq maxq : ℤ) (pos : ℚ) (seg : PathSegmentPlan)
    (hpos : uav.path_position = some pos)
    (hseg : find_active_segment pl pos = some seg)
    (hdiff : seg.planned_cell_id ≠ radio.serving_cell_id) :
    ∃ d, path_aware_rc_policy uav radio (some pl) service thr hyst minq maxq = Except.ok d ∧
      (d.target_cell_id = seg.planned_cell_id ↔
        (thr < radio.prb_utilization_serving ∧
          radio.rsrp_serving + hyst < radio.rsrp_best_neighbor)) ∧
      (¬ (thr < radio.prb_utilization_serving ∧
          radio.rsrp_serving + hyst < radio.rsrp_best_neighbor) →
        d.target_cell_id = radio.serving_cell_id) := by
  have hA : activeSegOf (some pl) uav.path_position = some seg := by
    rw [hpos]; exact hseg
  unfold path_aware_rc_policy
  dsimp only
  rw [hA]
  unfold selectTargetCell
  dsimp only
  rw [if_pos hdiff]
  by_cases h2 : thr < radio.prb_utilization_serving
  · rw [if_pos h2]
    by_cases h3 : radio.rsrp_serving + hyst < radio.rsrp_best_neighbor
    · rw [if_pos h3]
      refine ⟨_, rfl, ?_, ?_⟩
      · constructor
        · intro _; exact ⟨h2, h3⟩
        · intro _; rfl
      · intro hc; exact absurd ⟨h2, h3⟩ hc
    · rw [if_neg h3]
      refine ⟨_, rfl, ?_, ?_⟩
      · constructor
        · intro hc; exact absurd hc.symm hdiff
        · intro hc; exact absurd hc.2 h3
      · intro _; rfl
  · rw [if_neg h2]
    refine ⟨_, rfl, ?_, ?_⟩
    · constructor
      · intro hc; exact absurd hc.symm hdiff
      · intro hc; exact absurd hc.1 h2
    · intro _; rfl

/-- C2 witness at concrete inputs where the switch condition holds. -/
theorem C2_witness :
    ∃ d, path_aware_rc_policy ⟨"u", 0, 0, 0, none, some 1⟩ ⟨"A", ["B"], 0, 2, 1, none⟩
        (some ⟨"u", [⟨0, 2, "B", "s", 10⟩]⟩) none 0 1 5 100 = Except.ok d ∧
      (d.target_cell_id = "B" ↔
        ((0 : ℚ) < 1 ∧ (0 : ℚ) + 1 < 2)) ∧
      (¬ ((0 : ℚ) < 1 ∧ (0 : ℚ) + 1 < 2) → d.target_cell_id = "A") :=
  C2_follow_plan_iff ⟨"u", 0, 0, 0, none, some 1⟩ ⟨"A", ["B"], 0, 2, 1, none⟩
    ⟨"u", [⟨0, 2, "B", "s", 10⟩]⟩ none 0 1 5 100 1 ⟨0, 2, "B", "s", 10⟩
    rfl (by decide) (by decide)

/-! Helper lemmas about the planner's error behavior. -/

lemma buildLevels_error (rm : RadioMap) (cfg : PlannerConfig) :
    ∀ (steps : List ℤ) (e : PlanError), buildLevels rm cfg steps = .error e →
      ∃ i, e = .missingRadio i ∧ i ∈ steps ∧ rm.get_cells_for_step i = [] := by
  intro steps
  induction steps with
  | nil => intro e h; cases h
  | cons s rest ih =>
    intro e h
    unfold buildLevels at h
    by_cases hs : rm.get_cells_for_step s = []
    · rw [if_pos hs] at h
      exact ⟨s, (Except.error.inj h).symm, List.mem_cons_self _ _, hs⟩
    · rw [if_neg hs] at h
      cases hb : buildLevels rm cfg rest with
      | error e2 =>
        rw [hb] at h
        obtain ⟨i, hei, hmem, hcell⟩ := ih e2 hb
        exact ⟨i, (Except.error.inj h).symm.trans hei, List.mem_cons_of_mem _ hmem, hcell⟩
      | ok ls => rw [hb] at h; cases h

lemma buildLevels_ok (rm : RadioMap) (cfg : PlannerConfig) :
    ∀ (steps : List ℤ), (∀ s ∈ steps, rm.get_cells_for_step s ≠ []) →
      buildLevels rm cfg steps =
        .ok (steps.map (fun s => candidatesForStep cfg (rm.get_cells_for_step s))) := by
  intro steps
  induction steps with
  | nil => intro _; rfl
  | cons s rest ih =>
    intro h
    unfold buildLevels
    rw [if_neg (h s (List.mem_cons_self _ _)),
      ih (fun x hx => h x (List.mem_cons_of_mem _ hx))]
    rfl

lemma buildLevels_ok_covered (rm : RadioMap) (cfg : PlannerConfig) :
    ∀ (steps : List ℤ) (ls : List (List (String × CellMetric))),
      buildLevels rm cfg steps = .ok ls →
      ∀ s ∈ steps, rm.get_cells_for_step s ≠ [] := by
  intro steps
  induction steps with
  | nil => intro ls _ s hs; cases hs
  | cons s0 rest ih =>
    intro ls h s hs
    unfold buildLevels at h
    by_cases hs0 : rm.get_cells_for_step s0 = []
    · rw [if_pos hs0] at h; cases h
    · rw [if_neg hs0] at h
      rcases List.mem_cons.mp hs with rfl | hmem
      · exact hs0
      · cases hb : buildLevels rm cfg rest with
        | error e2 => rw [hb] at h; cases h
        | ok ls2 => exact ih ls2 hb s hmem

lemma dpNext_error (cfg : PlannerConfig) (prev : List DpEntry) :
    ∀ (cands : List (String × CellMetric)) (e : PlanError),
      dpNext cfg prev cands = .error e → e = .assertionFailed := by
  intro cands
  induction cands with
  | nil => intro e h; cases h
  | cons kv rest ih =>
    intro e h
    unfold dpNext at h
    cases hbi : bestIncoming cfg prev kv.1 kv.2 with
    | none => rw [hbi] at h; exact (Except.error.inj h).symm
    | some sp =>
      obtain ⟨s, pc⟩ := sp
      rw [hbi] at h
      dsimp only at h
      cases hn : dpNext cfg prev rest with
      | error e2 =>
        rw [hn] at h
        exact (Except.error.inj h).symm.trans (ih e2 hn)
      | ok es => rw [hn] at h; cases h

lemma dpFrom_error (cfg : PlannerConfig) :
    ∀ (cands : List (List (String × CellMetric))) (cur : List DpEntry) (e : PlanError),
      dpFrom cfg cur cands = .error e → e = .assertionFailed := by
  intro cands
  induction cands with
  | nil => intro cur e h; cases h
  | cons c cs ih =>
    intro cur e h
    unfold dpFrom at h
    cases hn : dpNext cfg cur c with
    | error e2 =>
      rw [hn] at h
      exact (Except.error.inj h).symm.trans (dpNext_error cfg cur c e2 hn)
    | ok nxt =>
      rw [hn] at h
      dsimp only at h
      cases hf : dpFrom cfg nxt cs with
      | error e2 =>
        rw [hf] at h
        exact (Except.error.inj h).symm.trans (ih nxt e2 hf)
      | ok rest => rw [hf] at h; cases h

lemma backtrackAux_error :
    ∀ (ls : List (List DpEntry)) (c : String) (e : PlanError),
      backtrackAux ls c = .error e → e = .assertionFailed := by
  intro ls
  induction ls with
  | nil => intro c e h; cases h
  | cons lvl rest ih =>
    intro c e h
    unfold backtrackAux at h
    cases hl : alookup c lvl with
    | none => rw [hl] at h; exact (Except.error.inj h).symm
    | some v =>
      obtain ⟨q, pc⟩ := v
      rw [hl] at h
      cases pc with
      | none => exact (Except.error.inj h).symm
      | some p =>
        dsimp only at h
        cases hb : backtrackAux rest p with
        | error e2 =>
          rw [hb] at h
          exact (Except.error.inj h).symm.trans (ih p e2 hb)
        | ok cs => rw [hb] at h; cases h

lemma choose_error_missing (waypoints : List Waypoint) (rm : RadioMap)
    (cfg : PlannerConfig) (i : ℤ)
    (h : choose_cells_dp waypoints rm cfg = .error (.missingRadio i)) :
    waypoints ≠ [] ∧ ∃ w ∈ waypoints, rm.get_cells_for_step w.index = [] := by
  unfold choose_cells_dp at h
  cases hb : buildLevels rm cfg ((sortByIndex waypoints).map Waypoint.index) with
  | error e =>
    rw [hb] at h
    have he : e = PlanError.missingRadio i := Except.error.inj h
    obtain ⟨j, hej, hmem, hcell⟩ := buildLevels_error rm cfg _ e hb
    have hij : j = i := by
      rw [he] at hej
      exact (PlanError.missingRadio.inj hej).symm
    obtain ⟨w, hw, hwi⟩ := List.mem_map.mp hmem
    refine ⟨?_, w, (List.mem_insertionSort _).mp hw, by rw [hwi]; exact hcell⟩
    intro hnil
    subst hnil
    cases hmem
  | ok ls =>
    rw [hb] at h
    cases ls with
    | nil => cases h
    | cons c0 rest =>
      dsimp only at h
      cases hf : dpFrom cfg (dpInit cfg c0) rest with
      | error e2 =>
        rw [hf] at h
        have := (Except.error.inj h).symm.trans (dpFrom_error cfg rest (dpInit cfg c0) e2 hf)
        cases this
      | ok levels =>
        rw [hf] at h
        dsimp only at h
        cases hlast : levels.getLast? with
        | none => rw [hlast] at h; cases Except.error.inj h
        | some last_dp =>
          rw [hlast] at h
          dsimp only at h
          cases hmax : pyMaxBy (fun e => e.2.1) last_dp with
          | none => rw [hmax] at h; cases Except.error.inj h
          | some lastE =>
            rw [hmax] at h
            dsimp only at h
            have := (backtrackAux_error _ _ _ h)
            cases this

lemma choose_error_of_missing (waypoints : List Waypoint) (rm : RadioMap)
    (cfg : PlannerConfig)
    (hmiss : ∃ w ∈ waypoints, rm.get_cells_for_step w.index = []) :
    ∃ i, choose_cells_dp waypoints rm cfg = .error (.missingRadio i) := by
  obtain ⟨w, hw, hcell⟩ := hmiss
  have hmem : w.index ∈ (sortByIndex waypoints).map Waypoint.index :=
    List.mem_map.mpr ⟨w, (List.mem_insertionSort _).mpr hw, rfl⟩
  cases hb : buildLevels rm cfg ((sortByIndex waypoints).map Waypoint.index) with
  | ok ls => exact absurd hcell (buildLevels_ok_covered rm cfg _ ls hb w.index hmem)
  | error e =>
    obtain ⟨i, rfl, _, _⟩ := buildLevels_error rm cfg _ e hb
    refine ⟨i, ?_⟩
    unfold choose_cells_dp
    rw [hb]

/-- C4: the planner raises the missing-radio-data ValueError exactly when
the waypoint list is non-empty and the radio map has no entry (or an
empty cell dict) at some waypoint's index; with zero waypoints it
returns the empty sequence and raises nothing. -/
theorem C4_missing_radio_iff (waypoints : List Waypoint) (rm : RadioMap)
    (cfg : PlannerConfig) :
    ((∃ i, choose_cells_dp waypoints rm cfg = .error (.missingRadio i)) ↔
      (waypoints ≠ [] ∧ ∃ w ∈ waypoints, rm.get_cells_for_step w.index = [])) ∧
    (waypoints = [] → choose_cells_dp waypoints rm cfg = .ok []) := by
  constructor
  · constructor
    · rintro ⟨i, hi⟩
      exact choose_error_missing waypoints rm cfg i hi
    · rintro ⟨hne, hmiss⟩
      exact choose_error_of_missing waypoints rm cfg hmiss
  · rintro rfl
    rfl

/-- C4 witness: concrete empty-input and missing-entry runs. -/
theorem C4_witness :
    choose_cells_dp [] (⟨[]⟩ : RadioMap) {} = .ok [] ∧
      choose_cells_dp [⟨5, 0, 0, 0⟩] (⟨[]⟩ : RadioMap) {} =
        .error (.missingRadio 5) := by
  refine ⟨(C4_missing_radio_iff [] ⟨[]⟩ {}).2 rfl, ?_⟩
  rfl

/-! Helper lemmas for the segment compiler. -/

lemma chain'_succ_range' : ∀ (n k : ℕ),
    List.Chain' (fun a b => b = a + 1) ((List.range' k n).map (Int.ofNat)) := by
  intro n
  induction n with
  | zero => intro k; simp
  | succ m ih =>
    intro k
    rw [List.range'_succ]
    rw [List.map_cons]
    apply List.chain'_cons'.mpr
    refine ⟨?_, ih (k + 1)⟩
    intro y hy
    cases m with
    | zero => cases hy
    | succ m2 =>
      rw [List.range'_succ, List.map_cons] at hy
      cases hy
      rfl

lemma head?_range_map (n : ℕ) (hn : n ≠ 0) :
    ((List.range n).map Int.ofNat).head? = some 0 := by
  obtain ⟨m, rfl⟩ := Nat.exists_eq_succ_of_ne_zero hn
  rw [List.range_succ_eq_map]
  simp

lemma getLast?_range_map (n : ℕ) (hn : n ≠ 0) :
    ((List.range n).map Int.ofNat).getLast? = some ((n - 1 : ℕ) : ℤ) := by
  obtain ⟨m, rfl⟩ := Nat.exists_eq_succ_of_ne_zero hn
  rw [List.range_succ, List.map_append]
  simp

lemma sortByIndex_eq_of_range (waypoints : List Waypoint)
    (hidx : waypoints.map Waypoint.index = (List.range waypoints.length).map Int.ofNat) :
    sortByIndex waypoints = waypoints := by
  apply List.Sorted.insertionSort_eq
  have hp : (waypoints.map Waypoint.index).Pairwise (· ≤ ·) := by
    rw [hidx]
    exact List.Pairwise.map _ (fun a b h => Int.ofNat_le.mpr h.le)
      (List.pairwise_lt_range _)
  exact List.pairwise_map.mp hp

lemma chain'_index_of_range (waypoints : List Waypoint)
    (hidx : waypoints.map Waypoint.index = (List.range waypoints.length).map Int.ofNat) :
    List.Chain' (fun a b => b.index = a.index + 1) waypoints := by
  have h : List.Chain' (fun a b => b = a + 1) (waypoints.map Waypoint.index) := by
    rw [hidx, List.range_eq_range']
    exact chain'_succ_range' _ 0
  exact (List.chain'_map Waypoint.index).mp h

lemma groupRunsGo_spec :
    ∀ (rest : List (Waypoint × String)) (startW lastW : Waypoint) (c : String),
      List.Chain (fun a b => b.index = a.index + 1) lastW (rest.map Prod.fst) →
      startW.index ≤ lastW.index →
      groupRunsGo startW lastW c rest ≠ [] ∧
      (groupRunsGo startW lastW c rest).head?.map (fun r => r.1) = some startW ∧
      (groupRunsGo startW lastW c rest).getLast?.map (fun r => r.2.1.index) =
        some ((rest.map (fun x => x.1.index)).getLastD lastW.index) ∧
      List.Chain' (fun r r' => r'.1.index = r.2.1.index + 1)
        (groupRunsGo startW lastW c rest) ∧
      (∀ r ∈ groupRunsGo startW lastW c rest,
        startW.index ≤ r.1.index ∧ r.1.index ≤ r.2.1.index ∧
        r.2.1.index ≤ (rest.map (fun x => x.1.index)).getLastD lastW.index) := by
  intro rest
  induction rest with
  | nil =>
    intro startW lastW c _ hsl
    refine ⟨by simp [groupRunsGo], by simp [groupRunsGo], by simp [groupRunsGo], ?_, ?_⟩
    · exact List.chain'_singleton _
    · intro r hr
      rw [groupRunsGo, List.mem_singleton] at hr
      subst hr
      exact ⟨le_refl _, hsl, le_refl _⟩
  | cons p rest ih =>
    intro startW lastW c hchain hsl
    obtain ⟨w, c'⟩ := p
    rw [List.map_cons] at hchain
    rw [List.chain_cons] at hchain
    obtain ⟨hwl, hchain'⟩ := hchain
    dsimp only at hwl hchain'
    by_cases hc : c' = c
    · rw [groupRunsGo, if_pos hc]
      have hsw : startW.index ≤ w.index := by rw [hwl]; omega
      obtain ⟨h1, h2, h3, h4, h5⟩ := ih startW w c hchain' hsw
      refine ⟨h1, h2, ?_, h4, ?_⟩
      · rw [h3]
        rw [List.map_cons, List.getLastD_cons]
      · intro r hr
        obtain ⟨ha, hb, hcc⟩ := h5 r hr
        exact ⟨ha, hb, by rw [List.map_cons, List.getLastD_cons]; exact hcc⟩
    · rw [groupRunsGo, if_neg hc]
      obtain ⟨h1, h2, h3, h4, h5⟩ := ih w w c' hchain' (le_refl _)
      -- the head element of the recursive group list
      obtain ⟨g, hg⟩ : ∃ g, (groupRunsGo w w c' rest).head? = some g := by
        cases hgr : groupRunsGo w w c' rest with
        | nil => exact absurd hgr h1
        | cons g t => exact ⟨g, rfl⟩
      have hgmem : g ∈ groupRunsGo w w c' rest := by
        cases hgr : groupRunsGo w w c' rest with
        | nil => exact absurd hgr h1
        | cons g2 t => rw [hgr] at hg; cases hg; exact List.mem_cons_self _ _
      have hgfst : g.1 = w := by
        rw [hg] at h2
        cases h2
        rfl
      have hlast_cons :
          ((startW, lastW, c) :: groupRunsGo w w c' rest).getLast? =
            (groupRunsGo w w c' rest).getLast? := by
        cases hgr : groupRunsGo w w c' rest with
        | nil => exact absurd hgr h1
        | cons g2 t => simp [List.getLast?_cons]
      have hwbound : w.index ≤ (rest.map (fun x => x.1.index)).getLastD w.index := by
        obtain ⟨ha, hb, hcc⟩ := h5 g hgmem
        have hgi : g.1.index = w.index := by rw [hgfst]
        omega
      refine ⟨by simp, by simp, ?_, ?_, ?_⟩
      · rw [hlast_cons, h3, List.map_cons, List.getLastD_cons]
      · rw [List.chain'_cons']
        refine ⟨?_, h4⟩
        intro y hy
        rw [hg] at hy
        cases hy
        rw [hgfst, hwl]
      · intro r hr
        rw [List.map_cons, List.getLastD_cons]
        dsimp only
        rcases List.mem_cons.mp hr with rfl | hmem
        · exact ⟨le_refl _, hsl, by dsimp only; omega⟩
        · obtain ⟨ha, hb, hcc⟩ := h5 r hmem
          refine ⟨?_, hb, hcc⟩
          omega

lemma segsOfRuns_spec (norm : ℚ) (slice : String) (quota : ℤ) (hnorm : 0 < norm) :
    ∀ (rs : List CellRun), rs ≠ [] →
      List.Chain' (fun r r' => r'.1.index = r.2.1.index + 1) rs →
      segsOfRuns norm slice quota rs ≠ [] ∧
      (segsOfRuns norm slice quota rs).head?.map PathSegmentPlan.start_pos =
        rs.head?.map (fun r => (r.1.index : ℚ) / norm) ∧
      (segsOfRuns norm slice quota rs).getLast?.map PathSegmentPlan.end_pos =
        rs.getLast?.map (fun r => min 1 ((r.2.1.index : ℚ) / norm + 1/1000000000)) ∧
      List.Chain' (fun a b => a.end_pos < b.start_pos ∧ b.start_pos = a.end_pos + 1/norm)
        (segsOfRuns norm slice quota rs) ∧
      (∀ s ∈ segsOfRuns norm slice quota rs, ∃ r ∈ rs,
        s.start_pos = (r.1.index : ℚ) / norm ∧
        (s.end_pos = (r.2.1.index : ℚ) / norm ∨
          s.end_pos = min 1 ((r.2.1.index : ℚ) / norm + 1/1000000000))) := by
  intro rs
  induction rs with
  | nil => intro h; exact absurd rfl h
  | cons r rs' ih =>
    intro _ hchain
    cases rs' with
    | nil =>
      refine ⟨by simp [segsOfRuns], by simp [segsOfRuns, runToSeg], ?_, ?_, ?_⟩
      · simp [segsOfRuns, runToSeg]
      · exact List.chain'_singleton _
      · intro s hs
        rw [segsOfRuns, List.mem_singleton] at hs
        subst hs
        exact ⟨r, List.mem_singleton.mpr rfl, rfl, Or.inr rfl⟩
    | cons r2 t =>
      rw [List.chain'_cons] at hchain
      obtain ⟨hr12, hchain'⟩ := hchain
      obtain ⟨h1, h2, h3, h4, h5⟩ := ih (by simp) hchain'
      have hexp : segsOfRuns norm slice quota (r :: r2 :: t) =
          runToSeg norm slice quota false r :: segsOfRuns norm slice quota (r2 :: t) := rfl
      rw [hexp]
      have hne2 : segsOfRuns norm slice quota (r2 :: t) ≠ [] := h1
      constructor
      · simp
      constructor
      · simp [runToSeg]
      constructor
      · cases hseg2 : segsOfRuns norm slice quota (r2 :: t) with
        | nil => exact absurd hseg2 hne2
        | cons s2 st =>
          rw [hseg2] at h3
          simpa [List.getLast?_cons] using h3
      constructor
      · rw [List.chain'_cons']
        refine ⟨?_, h4⟩
        intro y hy
        have hy1 : y.start_pos = (r2.1.index : ℚ) / norm := by
          cases hseg2 : segsOfRuns norm slice quota (r2 :: t) with
          | nil => exact absurd hseg2 hne2
          | cons s2 st =>
            rw [hseg2] at hy h2
            cases hy
            simp only [List.head?_cons, Option.map_some] at h2
            exact Option.some.inj h2
        have hend : (runToSeg norm slice quota false r).end_pos = (r.2.1.index : ℚ) / norm := rfl
        constructor
        · rw [hy1, hend]
          apply div_lt_div_of_pos_right ?_ hnorm
          exact_mod_cast by omega
        · rw [hy1, hend, hr12]
          push_cast
          rw [add_div]
      · intro s hs
        rcases List.mem_cons.mp hs with rfl | hmem
        · exact ⟨r, List.mem_cons_self _ _, rfl, Or.inl rfl⟩
        · obtain ⟨rr, hrr, ha, hb⟩ := h5 s hmem
          exact ⟨rr, List.mem_cons_of_mem _ hrr, ha, hb⟩

/-- C3 as stated is false: with two waypoints and one handover the first
segment ends at position 0 while the second starts at position 1, so
consecutive compiled segments do not share an endpoint (the claimed
contiguity fails). -/
theorem C3_counterexample :
    ∃ s1 s2, (compress_to_segments "u" [⟨0, 0, 0, 0⟩, ⟨1, 0, 0, 0⟩] ["A", "B"]
        ⟨"s", 10, 0⟩).segments = [s1, s2] ∧ s2.start_pos ≠ s1.end_pos := by
  refine ⟨_, _, rfl, ?_⟩
  simp only [runToSeg, sortByIndex, List.length_insertionSort]
  norm_num

/-- C3 amended: for a non-empty waypoint list indexed 0..n-1 with a
matching cell sequence, the compiled segments are non-empty, ordered by
position and non-overlapping, the first starts at 0, positions follow
pos = index / max(1, n-1), and each later segment starts exactly one
normalized step after the previous segment's end (they are separated by
the inter-waypoint gap, not contiguous); the last end position is 1 for
n at least 2 and the bare epsilon 1e-9 when n = 1; all positions lie in
[0, 1] with start at most end. -/
theorem C3_segment_structure (uav_id : String) (waypoints : List Waypoint)
    (cells : List String) (service : ServiceProfile)
    (hidx : waypoints.map Waypoint.index = (List.range waypoints.length).map Int.ofNat)
    (hne : waypoints ≠ []) (hlen : cells.length = waypoints.length) :
    (compress_to_segments uav_id waypoints cells service).segments ≠ [] ∧
    ((compress_to_segments uav_id waypoints cells service).segments.head?.map
        PathSegmentPlan.start_pos = some 0) ∧
    ((compress_to_segments uav_id waypoints cells service).segments.getLast?.map
        PathSegmentPlan.end_pos =
      some (if waypoints.length = 1 then 1/1000000000 else 1)) ∧
    List.Chain' (fun a b => a.end_pos < b.start_pos ∧
        b.start_pos = a.end_pos + 1/((max 1 (waypoints.length - 1) : ℕ) : ℚ))
      (compress_to_segments uav_id waypoints cells service).segments ∧
    (∀ s ∈ (compress_to_segments uav_id waypoints cells service).segments,
      0 ≤ s.start_pos ∧ s.start_pos ≤ s.end_pos ∧ s.end_pos ≤ 1) := by
  have hn0 : waypoints.length ≠ 0 := fun h => hne (List.length_eq_zero.mp h)
  have hcne : cells ≠ [] := by
    intro hc
    rw [hc] at hlen
    exact hn0 hlen.symm
  have hcomp : (compress_to_segments uav_id waypoints cells service).segments =
      segsOfRuns ((max 1 (waypoints.length - 1) : ℕ) : ℚ) service.name
        (max 5 (pyInt service.target_bitrate_mbps))
        (groupRuns (waypoints.zip cells)) := by
    unfold compress_to_segments
    rw [if_neg (not_or.mpr ⟨hne, hcne⟩)]
    dsimp only
    rw [sortByIndex_eq_of_range waypoints hidx]
  have hnormpos : (0 : ℚ) < ((max 1 (waypoints.length - 1) : ℕ) : ℚ) := by
    have h1 : (0 : ℕ) < max 1 (waypoints.length - 1) :=
      lt_of_lt_of_le Nat.zero_lt_one (le_max_left _ _)
    exact_mod_cast h1
  have hfst : (waypoints.zip cells).map Prod.fst = waypoints :=
    List.map_fst_zip waypoints cells (le_of_eq hlen.symm)
  cases hps : waypoints.zip cells with
  | nil =>
    exfalso
    rw [hps] at hfst
    exact hne hfst.symm
  | cons p0 rest =>
    obtain ⟨w0, c0⟩ := p0
    rw [hps] at hfst
    have hway : waypoints = w0 :: rest.map Prod.fst := by
      rw [← hfst]
      rfl
    have hhead : waypoints.head? = some w0 := by rw [hway]; rfl
    have hw0 : w0.index = 0 := by
      have h1 : (waypoints.map Waypoint.index).head? = some 0 := by
        rw [hidx]
        exact head?_range_map _ hn0
      rw [List.head?_map, hhead] at h1
      simpa using h1
    have hlastidx : (rest.map (fun x => x.1.index)).getLastD w0.index =
        ((waypoints.length - 1 : ℕ) : ℤ) := by
      have h1 : (waypoints.map Waypoint.index).getLast? =
          some ((waypoints.length - 1 : ℕ) : ℤ) := by
        rw [hidx]
        exact getLast?_range_map _ hn0
      rw [hway, List.map_cons, List.getLast?_cons, List.map_map, ← hway] at h1
      have h2 := Option.some.inj h1
      rw [List.getLastD_eq_getLast?]
      exact h2
    have hchainw : List.Chain (fun a b => b.index = a.index + 1) w0 (rest.map Prod.fst) := by
      have h := chain'_index_of_range waypoints hidx
      rw [hway] at h
      exact h
    have hchaing : List.Chain (fun a b => b.index = a.index + 1) w0
        (List.map Prod.fst rest) := hchainw
    obtain ⟨g1, g2, g3, g4, g5⟩ := groupRunsGo_spec rest w0 w0 c0 hchaing (le_refl _)
    have hgr : groupRuns ((w0, c0) :: rest) = groupRunsGo w0 w0 c0 rest := rfl
    obtain ⟨s1', s2', s3', s4', s5'⟩ :=
      segsOfRuns_spec ((max 1 (waypoints.length - 1) : ℕ) : ℚ) service.name
        (max 5 (pyInt service.target_bitrate_mbps)) hnormpos
        (groupRunsGo w0 w0 c0 rest) g1 g4
    rw [hcomp, hps, hgr]
    have hleq : ∀ i : ℤ, i ≤ ((waypoints.length - 1 : ℕ) : ℤ) →
        (i : ℚ) ≤ ((max 1 (waypoints.length - 1) : ℕ) : ℚ) := by
      intro i hi
      have h2 : ((waypoints.length - 1 : ℕ) : ℤ) ≤ ((max 1 (waypoints.length - 1) : ℕ) : ℤ) := by
        exact_mod_cast Nat.le_max_right 1 (waypoints.length - 1)
      have h3 : i ≤ ((max 1 (waypoints.length - 1) : ℕ) : ℤ) := le_trans hi h2
      exact_mod_cast h3
    refine ⟨s1', ?_, ?_, s4', ?_⟩
    · -- first segment starts at 0
      rw [s2']
      cases hr : (groupRunsGo w0 w0 c0 rest).head? with
      | none => rw [hr] at g2; cases g2
      | some r0 =>
        rw [hr] at g2
        have hr0 : r0.1 = w0 := by simpa using g2
        rw [Option.map_some', hr0, hw0]
        norm_num
    · -- last segment ends at 1 (or epsilon for a single waypoint)
      rw [s3']
      cases hr : (groupRunsGo w0 w0 c0 rest).getLast? with
      | none => rw [hr] at g3; cases g3
      | some rN =>
        rw [hr, Option.map_some'] at g3
        have hrN : rN.2.1.index = ((waypoints.length - 1 : ℕ) : ℤ) := by
          rw [Option.some.inj g3, hlastidx]
        rw [Option.map_some', hrN]
        by_cases h1 : waypoints.length = 1
        · rw [if_pos h1, h1]
          norm_num
        · rw [if_neg h1]
          have h2 : 2 ≤ waypoints.length := by omega
          have hmax : max 1 (waypoints.length - 1) = waypoints.length - 1 :=
            Nat.max_eq_right (by omega)
          rw [hmax]
          have hpos : (0 : ℚ) < ((waypoints.length - 1 : ℕ) : ℚ) := by
            have : (0 : ℕ) < waypoints.length - 1 := by omega
            exact_mod_cast this
          rw [Int.cast_natCast, div_self (ne_of_gt hpos)]
          norm_num
    · -- per-segment position bounds
      intro s hs
      obtain ⟨r, hrmem, hstart, hend⟩ := s5' s hs
      obtain ⟨ha, hb, hc⟩ := g5 r hrmem
      rw [hw0] at ha
      have hstart_nonneg : (0 : ℚ) ≤ s.start_pos := by
        rw [hstart]
        apply div_nonneg _ hnormpos.le
        exact_mod_cast ha
      have hstart_le_norm : (r.1.index : ℚ) ≤ ((max 1 (waypoints.length - 1) : ℕ) : ℚ) :=
        hleq _ (le_trans hb (hlastidx ▸ hc))
      have hend_le_norm : (r.2.1.index : ℚ) ≤ ((max 1 (waypoints.length - 1) : ℕ) : ℚ) :=
        hleq _ (hlastidx ▸ hc)
      have hstart_le_one : (r.1.index : ℚ) / ((max 1 (waypoints.length - 1) : ℕ) : ℚ) ≤ 1 :=
        (div_le_one hnormpos).mpr hstart_le_norm
      have hse : (r.1.index : ℚ) / ((max 1 (waypoints.length - 1) : ℕ) : ℚ) ≤
          (r.2.1.index : ℚ) / ((max 1 (waypoints.length - 1) : ℕ) : ℚ) :=
        (div_le_div_iff_of_pos_right hnormpos).mpr (by exact_mod_cast hb)
      refine ⟨hstart_nonneg, ?_, ?_⟩
      · rcases hend with he | he
        · rw [hstart, he]
          exact hse
        · rw [hstart, he]
          exact le_min hstart_le_one
            (le_trans hse (le_add_of_nonneg_right (by norm_num)))
      · rcases hend with he | he
        · rw [he]
          exact (div_le_one hnormpos).mpr hend_le_norm
        · rw [he]
          exact min_le_left _ _

/-- C3 witness: two waypoints indexed 0 and 1 whose cells agree, giving
a single segment spanning the normalized path. -/
theorem C3_witness :
    (compress_to_segments "u" [⟨0, 0, 0, 0⟩, ⟨1, 0, 0, 0⟩] ["A", "A"]
        ⟨"s", 10, 0⟩).segments ≠ [] ∧
    ((compress_to_segments "u" [⟨0, 0, 0, 0⟩, ⟨1, 0, 0, 0⟩] ["A", "A"]
        ⟨"s", 10, 0⟩).segments.head?.map PathSegmentPlan.start_pos = some 0) ∧
    ((compress_to_segments "u" [⟨0, 0, 0, 0⟩, ⟨1, 0, 0, 0⟩] ["A", "A"]
        ⟨"s", 10, 0⟩).segments.getLast?.map PathSegmentPlan.end_pos =
      some (if ([⟨0, 0, 0, 0⟩, ⟨(1 : ℤ), 0, 0, 0⟩] : List Waypoint).length = 1
        then 1/1000000000 else 1)) ∧
    List.Chain' (fun a b => a.end_pos < b.start_pos ∧
        b.start_pos = a.end_pos +
          1/((max 1 (([⟨0, 0, 0, 0⟩, ⟨(1 : ℤ), 0, 0, 0⟩] : List Waypoint).length - 1) : ℕ) : ℚ))
      (compress_to_segments "u" [⟨0, 0, 0, 0⟩, ⟨1, 0, 0, 0⟩] ["A", "A"]
        ⟨"s", 10, 0⟩).segments ∧
    (∀ s ∈ (compress_to_segments "u" [⟨0, 0, 0, 0⟩, ⟨1, 0, 0, 0⟩] ["A", "A"]
        ⟨"s", 10, 0⟩).segments,
      0 ≤ s.start_pos ∧ s.start_pos ≤ s.end_pos ∧ s.end_pos ≤ 1) :=
  C3_segment_structure "u" [⟨0, 0, 0, 0⟩, ⟨1, 0, 0, 0⟩] ["A", "A"] ⟨"s", 10, 0⟩
    rfl (by decide) rfl

/-! Helper lemmas for the DP planner's optimality. -/

lemma foldl_qmax_choice {α : Type} (f : α → ℚ) :
    ∀ (l : List α) (init : α),
      l.foldl (qmaxStep f) init = init ∨ l.foldl (qmaxStep f) init ∈ l := by
  intro l
  induction l with
  | nil => intro init; left; rfl
  | cons x xs ih =>
    intro init
    rw [List.foldl_cons]
    rcases ih (qmaxStep f init x) with h | h
    · rw [h]
      unfold qmaxStep
      split
      · right; exact List.mem_cons_self _ _
      · left; rfl
    · right; exact List.mem_cons_of_mem _ h

lemma foldl_qmax_ub {α : Type} (f : α → ℚ) :
    ∀ (l : List α) (init : α),
      f init ≤ f (l.foldl (qmaxStep f) init) ∧
        ∀ x ∈ l, f x ≤ f (l.foldl (qmaxStep f) init) := by
  intro l
  induction l with
  | nil =>
    intro init
    exact ⟨le_refl _, by intro x hx; cases hx⟩
  | cons y ys ih =>
    intro init
    rw [List.foldl_cons]
    obtain ⟨h1, h2⟩ := ih (qmaxStep f init y)
    have hinit : f init ≤ f (qmaxStep f init y) := by
      unfold qmaxStep
      split
      · exact le_of_lt (by assumption)
      · exact le_refl _
    have hy : f y ≤ f (qmaxStep f init y) := by
      unfold qmaxStep
      split
      · exact le_refl _
      · exact le_of_not_lt (by assumption)
    refine ⟨le_trans hinit h1, ?_⟩
    intro x hx
    rcases List.mem_cons.mp hx with rfl | hx2
    · exact le_trans hy h1
    · exact h2 x hx2

lemma pyMaxBy_spec {α : Type} (f : α → ℚ) (l : List α) (m : α)
    (hm : pyMaxBy f l = some m) : m ∈ l ∧ ∀ x ∈ l, f x ≤ f m := by
  cases l with
  | nil => cases hm
  | cons x xs =>
    have hmx : m = xs.foldl (qmaxStep f) x := (Option.some.inj hm).symm
    obtain ⟨h1, h2⟩ := foldl_qmax_ub f xs x
    constructor
    · rcases foldl_qmax_choice f xs x with h | h
      · rw [hmx, h]; exact List.mem_cons_self _ _
      · rw [hmx]; exact List.mem_cons_of_mem _ h
    · intro z hz
      rcases List.mem_cons.mp hz with rfl | hz2
      · rw [hmx]; exact h1
      · rw [hmx]; exact h2 z hz2

lemma transScore_eq_stepScore (cfg : PlannerConfig) (pc : String) (ps : ℚ)
    (kv : String × CellMetric) :
    transScore cfg pc ps kv.1 kv.2 = ps + stepScore cfg pc kv := by
  unfold transScore stepScore
  by_cases h : pc = kv.1
  · rw [if_neg (by simpa using h), if_neg (by simpa using h.symm)]
    ring
  · rw [if_pos (by simpa using h), if_pos (by simpa using fun hh => h hh.symm)]
    ring

lemma bestIncoming_spec (cfg : PlannerConfig) (prev : List DpEntry)
    (cell : String) (met : CellMetric) (s : ℚ) (pc : String)
    (h : bestIncoming cfg prev cell met = some (s, pc)) :
    (∃ e ∈ prev, pc = e.1 ∧ s = transScore cfg e.1 e.2.1 cell met) ∧
      ∀ e ∈ prev, transScore cfg e.1 e.2.1 cell met ≤ s := by
  cases prev with
  | nil => cases h
  | cons e0 es =>
    unfold bestIncoming at h
    rw [List.map_cons] at h
    dsimp only at h
    have hsp : (s, pc) =
        (es.map (fun e => (transScore cfg e.1 e.2.1 cell met, e.1))).foldl
          (qmaxStep Prod.fst) (transScore cfg e0.1 e0.2.1 cell met, e0.1) :=
      (Option.some.inj h).symm
    obtain ⟨h1, h2⟩ := foldl_qmax_ub (Prod.fst)
      (es.map (fun e => (transScore cfg e.1 e.2.1 cell met, e.1)))
      (transScore cfg e0.1 e0.2.1 cell met, e0.1)
    constructor
    · rcases foldl_qmax_choice (Prod.fst)
        (es.map (fun e => (transScore cfg e.1 e.2.1 cell met, e.1)))
        (transScore cfg e0.1 e0.2.1 cell met, e0.1) with hc | hc
      · rw [hc] at hsp
        refine ⟨e0, List.mem_cons_self _ _, ?_, ?_⟩
        · exact congrArg Prod.snd hsp
        · exact congrArg Prod.fst hsp
      · rw [← hsp] at hc
        obtain ⟨e, he, heq⟩ := List.mem_map.mp hc
        refine ⟨e, List.mem_cons_of_mem _ he, ?_, ?_⟩
        · exact (congrArg Prod.snd heq).symm
        · exact (congrArg Prod.fst heq).symm
    · intro e he
      rcases List.mem_cons.mp he with rfl | he2
      · rw [← hsp] at h1
        exact h1
      · have := h2 (transScore cfg e.1 e.2.1 cell met, e.1)
          (List.mem_map.mpr ⟨e, he2, rfl⟩)
        rw [← hsp] at this
        exact this

lemma alookup_eq_some_of_mem {β : Type} :
    ∀ (l : List (String × β)) (k : String) (v : β),
      (l.map Prod.fst).Nodup → (k, v) ∈ l → alookup k l = some v := by
  intro l
  induction l with
  | nil => intro k v _ hm; cases hm
  | cons kv rest ih =>
    intro k v hnd hm
    rw [List.map_cons, List.nodup_cons] at hnd
    obtain ⟨hk, hnd'⟩ := hnd
    unfold alookup
    rcases List.mem_cons.mp hm with rfl | hm2
    · rw [if_pos rfl]
    · by_cases hkk : kv.1 = k
      · exfalso
        apply hk
        rw [hkk]
        exact List.mem_map.mpr ⟨(k, v), hm2, rfl⟩
      · rw [if_neg hkk]
        exact ih k v hnd' hm2

lemma dpNext_ok_forall2 (cfg : PlannerConfig) (prev : List DpEntry)
    (hprev : prev ≠ []) :
    ∀ (cands : List (String × CellMetric)),
      ∃ l, dpNext cfg prev cands = .ok l ∧
        List.Forall₂ (DpNextRel cfg prev) cands l := by
  intro cands
  induction cands with
  | nil => exact ⟨[], rfl, List.Forall₂.nil⟩
  | cons kv rest ih =>
    obtain ⟨l, hl, hrel⟩ := ih
    cases hbi : bestIncoming cfg prev kv.1 kv.2 with
    | none =>
      exfalso
      cases prev with
      | nil => exact hprev rfl
      | cons e es => unfold bestIncoming at hbi; rw [List.map_cons] at hbi; cases hbi
    | some sp =>
      obtain ⟨s, pc⟩ := sp
      refine ⟨(kv.1, s, some pc) :: l, ?_, List.Forall₂.cons ⟨s, pc, hbi, rfl⟩ hrel⟩
      unfold dpNext
      rw [hbi, hl]

lemma forall2_mem_right {α β : Type} {R : α → β → Prop} :
    ∀ {l1 : List α} {l2 : List β}, List.Forall₂ R l1 l2 →
      ∀ b ∈ l2, ∃ a ∈ l1, R a b := by
  intro l1 l2 h
  induction h with
  | nil => intro b hb; cases hb
  | cons hR _ ih =>
    intro b hb
    rcases List.mem_cons.mp hb with rfl | hb2
    · exact ⟨_, List.mem_cons_self _ _, hR⟩
    · obtain ⟨a, ha, hr⟩ := ih b hb2
      exact ⟨a, List.mem_cons_of_mem _ ha, hr⟩

lemma forall2_mem_left {α β : Type} {R : α → β → Prop} :
    ∀ {l1 : List α} {l2 : List β}, List.Forall₂ R l1 l2 →
      ∀ a ∈ l1, ∃ b ∈ l2, R a b := by
  intro l1 l2 h
  induction h with
  | nil => intro a ha; cases ha
  | cons hR _ ih =>
    intro a ha
    rcases List.mem_cons.mp ha with rfl | ha2
    · exact ⟨_, List.mem_cons_self _ _, hR⟩
    · obtain ⟨b, hb, hr⟩ := ih a ha2
      exact ⟨b, List.mem_cons_of_mem _ hb, hr⟩

lemma dpNext_keys (cfg : PlannerConfig) (prev : List DpEntry)
    (cands : List (String × CellMetric)) (l : List DpEntry)
    (hrel : List.Forall₂ (DpNextRel cfg prev) cands l) :
    l.map (fun e => e.1) = cands.map Prod.fst := by
  induction hrel with
  | nil => rfl
  | cons hR hrest ih =>
    obtain ⟨s, pc, _, rfl⟩ := hR
    rw [List.map_cons, List.map_cons, ih]

lemma getLast?_cons_of_ne_nil {α : Type} (a : α) (l : List α) (h : l ≠ []) :
    (a :: l).getLast? = l.getLast? := by
  cases l with
  | nil => exact absurd rfl h
  | cons b t => simp [List.getLast?_cons]

lemma dpFrom_ne_nil (cfg : PlannerConfig) :
    ∀ (cands : List (List (String × CellMetric))) (cur : List DpEntry)
      (levels : List (List DpEntry)),
      dpFrom cfg cur cands = .ok levels → levels ≠ [] := by
  intro cands cur levels h
  cases cands with
  | nil =>
    have := Except.ok.inj h
    rw [← this]
    simp
  | cons c cs =>
    unfold dpFrom at h
    cases hn : dpNext cfg cur c with
    | error e => rw [hn] at h; cases h
    | ok nxt =>
      rw [hn] at h
      dsimp only at h
      cases hf : dpFrom cfg nxt cs with
      | error e => rw [hf] at h; cases h
      | ok rest =>
        rw [hf] at h
        have := Except.ok.inj h
        rw [← this]
        simp

lemma dp_ub (cfg : PlannerConfig) :
    ∀ (cands : List (List (String × CellMetric))) (cur : List DpEntry)
      (levels : List (List DpEntry)) (lastLvl : List DpEntry),
      dpFrom cfg cur cands = .ok levels → levels.getLast? = some lastLvl →
      ∀ e ∈ cur, ∀ p, List.Forall₂ (fun kv lvl => kv ∈ lvl) p cands →
        ∃ e2 ∈ lastLvl, e2.1 = lastCellFrom e.1 p ∧
          e.2.1 + pathScoreFrom cfg e.1 p ≤ e2.2.1 := by
  intro cands
  induction cands with
  | nil =>
    intro cur levels lastLvl hdp hlast e he p hp
    have hlv : [cur] = levels := Except.ok.inj hdp
    rw [← hlv] at hlast
    have hlc : cur = lastLvl := by simpa using hlast
    cases hp
    refine ⟨e, by rw [← hlc]; exact he, rfl, ?_⟩
    unfold pathScoreFrom
    rw [add_zero]
  | cons c cs ih =>
    intro cur levels lastLvl hdp hlast e he p hp
    unfold dpFrom at hdp
    cases hn : dpNext cfg cur c with
    | error e2 => rw [hn] at hdp; cases hdp
    | ok nxt =>
      rw [hn] at hdp
      dsimp only at hdp
      cases hf : dpFrom cfg nxt cs with
      | error e2 => rw [hf] at hdp; cases hdp
      | ok rest =>
        rw [hf] at hdp
        have hlv : cur :: rest = levels := Except.ok.inj hdp
        rw [← hlv] at hlast
        have hrne : rest ≠ [] := dpFrom_ne_nil cfg cs nxt rest hf
        rw [getLast?_cons_of_ne_nil _ _ hrne] at hlast
        cases hp with
        | cons hkv hp' =>
          rename_i kv p'
          obtain ⟨l, hl, hrel⟩ := dpNext_ok_forall2 cfg cur (List.ne_nil_of_mem he) c
          have hlnxt : l = nxt := Except.ok.inj (hl.symm.trans hn)
          subst hlnxt
          obtain ⟨en, hen, s, pc, hbi, hene⟩ := forall2_mem_left hrel kv hkv
          obtain ⟨_, hub⟩ := bestIncoming_spec cfg cur kv.1 kv.2 s pc hbi
          have hA : e.2.1 + stepScore cfg e.1 kv ≤ s := by
            have := hub e he
            rw [transScore_eq_stepScore] at this
            exact this
          obtain ⟨e2, he2, hcell, hscore⟩ := ih l rest lastLvl hf hlast en hen p' hp'
          have hen1 : en.1 = kv.1 := by rw [hene]
          have hen2 : en.2.1 = s := by rw [hene]
          refine ⟨e2, he2, ?_, ?_⟩
          · rw [hcell, hen1]
            rfl
          · have hB : s + pathScoreFrom cfg kv.1 p' ≤ e2.2.1 := by
              rw [← hen2, ← hen1]
              exact hscore
            have hexp : pathScoreFrom cfg e.1 (kv :: p') =
                stepScore cfg e.1 kv + pathScoreFrom cfg kv.1 p' := rfl
            rw [hexp]
            linarith

lemma dpNext_forall2_of_ok (cfg : PlannerConfig) (prev : List DpEntry) :
    ∀ (cands : List (String × CellMetric)) (l : List DpEntry),
      dpNext cfg prev cands = .ok l →
      List.Forall₂ (DpNextRel cfg prev) cands l := by
  intro cands
  induction cands with
  | nil =>
    intro l h
    have := Except.ok.inj h
    rw [← this]
    exact List.Forall₂.nil
  | cons kv rest ih =>
    intro l h
    unfold dpNext at h
    cases hbi : bestIncoming cfg prev kv.1 kv.2 with
    | none => rw [hbi] at h; cases h
    | some sp =>
      obtain ⟨s, pc⟩ := sp
      rw [hbi] at h
      dsimp only at h
      cases hn : dpNext cfg prev rest with
      | error e => rw [hn] at h; cases h
      | ok es =>
        rw [hn] at h
        have := Except.ok.inj h
        rw [← this]
        exact List.Forall₂.cons ⟨s, pc, hbi, rfl⟩ (ih es hn)

lemma dpFrom_head (cfg : PlannerConfig) :
    ∀ (cands : List (List (String × CellMetric))) (cur : List DpEntry)
      (levels : List (List DpEntry)),
      dpFrom cfg cur cands = .ok levels → levels.head? = some cur := by
  intro cands cur levels h
  cases cands with
  | nil =>
    have := Except.ok.inj h
    rw [← this]
    rfl
  | cons c cs =>
    unfold dpFrom at h
    cases hn : dpNext cfg cur c with
    | error e => rw [hn] at h; cases h
    | ok nxt =>
      rw [hn] at h
      dsimp only at h
      cases hf : dpFrom cfg nxt cs with
      | error e => rw [hf] at h; cases h
      | ok rest =>
        rw [hf] at h
        have := Except.ok.inj h
        rw [← this]
        rfl

lemma backtrackAux_append :
    ∀ (ls ls2 : List (List DpEntry)) (c : String) (r : List String),
      backtrackAux ls c = .ok r →
      ∃ h0 t, r = h0 :: t ∧
        ∀ r2, backtrackAux ls2 h0 = .ok r2 →
          backtrackAux (ls ++ ls2) c = .ok (r2 ++ t) := by
  intro ls
  induction ls with
  | nil =>
    intro ls2 c r h
    have hr : [c] = r := Except.ok.inj h
    refine ⟨c, [], hr.symm, ?_⟩
    intro r2 hr2
    rw [List.nil_append]
    rw [hr2]
    simp
  | cons lvl ls1 ih =>
    intro ls2 c r h
    unfold backtrackAux at h
    cases hl : alookup c lvl with
    | none => rw [hl] at h; cases h
    | some v =>
      obtain ⟨q, pcv⟩ := v
      rw [hl] at h
      cases pcv with
      | none => cases h
      | some p =>
        dsimp only at h
        cases hb : backtrackAux ls1 p with
        | error e => rw [hb] at h; cases h
        | ok cs =>
          rw [hb] at h
          have hr : cs ++ [c] = r := Except.ok.inj h
          obtain ⟨h0, t1, hcs, hcont⟩ := ih ls2 p cs hb
          refine ⟨h0, t1 ++ [c], ?_, ?_⟩
          · rw [← hr, hcs]
            rfl
          · intro r2 hr2
            have hstep := hcont r2 hr2
            show (match alookup c lvl with
              | none => Except.error PlanError.assertionFailed
              | some (_, none) => Except.error PlanError.assertionFailed
              | some (_, some p) =>
                match backtrackAux (ls1 ++ ls2) p with
                | Except.error e => Except.error e
                | Except.ok cs => Except.ok (cs ++ [c])) = Except.ok (r2 ++ (t1 ++ [c]))
            rw [hl]
            dsimp only
            rw [hstep]
            rw [← List.append_assoc]

lemma dp_bt (cfg : PlannerConfig) :
    ∀ (cands : List (List (String × CellMetric))) (cur : List DpEntry)
      (levels : List (List DpEntry)) (lastLvl : List DpEntry),
      dpFrom cfg cur cands = .ok levels → levels.getLast? = some lastLvl →
      (∀ lvl ∈ levels, (lvl.map (fun e => e.1)).Nodup) →
      ∀ e ∈ lastLvl,
        ∃ e0 ∈ cur, ∃ p, List.Forall₂ (fun kv lvl => kv ∈ lvl) p cands ∧
          backtrackAux levels.tail.reverse e.1 = .ok (e0.1 :: p.map Prod.fst) ∧
          e0.2.1 + pathScoreFrom cfg e0.1 p = e.2.1 ∧
          lastCellFrom e0.1 p = e.1 := by
  intro cands
  induction cands with
  | nil =>
    intro cur levels lastLvl hdp hlast hnd e he
    have hlv : [cur] = levels := Except.ok.inj hdp
    rw [← hlv] at hlast
    have hlc : cur = lastLvl := by simpa using hlast
    refine ⟨e, by rw [hlc]; exact he, [], List.Forall₂.nil, ?_, ?_, rfl⟩
    · rw [← hlv]
      rfl
    · unfold pathScoreFrom
      rw [add_zero]
  | cons c cs ih =>
    intro cur levels lastLvl hdp hlast hnd e he
    unfold dpFrom at hdp
    cases hn : dpNext cfg cur c with
    | error e2 => rw [hn] at hdp; cases hdp
    | ok nxt =>
      rw [hn] at hdp
      dsimp only at hdp
      cases hf : dpFrom cfg nxt cs with
      | error e2 => rw [hf] at hdp; cases hdp
      | ok rest =>
        rw [hf] at hdp
        have hlv : cur :: rest = levels := Except.ok.inj hdp
        rw [← hlv] at hlast hnd ⊢
        have hrne : rest ≠ [] := dpFrom_ne_nil cfg cs nxt rest hf
        rw [getLast?_cons_of_ne_nil _ _ hrne] at hlast
        have hnd' : ∀ lvl ∈ rest, (lvl.map (fun e => e.1)).Nodup :=
          fun lvl hl => hnd lvl (List.mem_cons_of_mem _ hl)
        obtain ⟨e1, he1, p', hp', hbt', hscore', hlastc'⟩ :=
          ih nxt rest lastLvl hf hlast hnd' e he
        cases rest with
        | nil => exact absurd rfl hrne
        | cons r0 rest' =>
          have hr0 : r0 = nxt := by
            have := dpFrom_head cfg cs nxt (r0 :: rest') hf
            simpa using this
          subst hr0
          have hrev : ((cur :: r0 :: rest').tail).reverse = rest'.reverse ++ [r0] := by
            simp
          have htl : ((r0 :: rest').tail).reverse = rest'.reverse := rfl
          rw [htl] at hbt'
          obtain ⟨h0, t, hht, hcont⟩ :=
            backtrackAux_append rest'.reverse [r0] e.1 _ hbt'
          have hh0 : h0 = e1.1 := (List.cons.inj hht).1.symm
          have hht2 : t = p'.map Prod.fst := (List.cons.inj hht).2.symm
          have hrel := dpNext_forall2_of_ok cfg cur c r0 hn
          obtain ⟨kv, hkv, s, pc, hbi, hene⟩ := forall2_mem_right hrel e1 he1
          obtain ⟨⟨e0, he0, hpc, hs⟩, _⟩ := bestIncoming_spec cfg cur kv.1 kv.2 s pc hbi
          have hndr0 : (r0.map (fun e => e.1)).Nodup :=
            hnd r0 (List.mem_cons_of_mem _ (List.mem_cons_self _ _))
          have hlook : alookup e1.1 r0 = some e1.2 :=
            alookup_eq_some_of_mem r0 e1.1 e1.2 hndr0 he1
          have he12 : e1.2 = (s, some pc) := by rw [hene]
          have hbt1 : backtrackAux [r0] e1.1 = .ok [pc, e1.1] := by
            unfold backtrackAux
            rw [hlook, he12]
            rfl
          have hfinal := hcont [pc, e1.1] (by rw [hh0]; exact hbt1)
          have he11 : e1.1 = kv.1 := by rw [hene]
          have he121 : e1.2.1 = s := by rw [hene]
          refine ⟨e0, he0, kv :: p', List.Forall₂.cons hkv hp', ?_, ?_, ?_⟩
          · rw [hrev, hfinal, hht2, hpc, he11]
            rfl
          · have hexp : pathScoreFrom cfg e0.1 (kv :: p') =
                stepScore cfg e0.1 kv + pathScoreFrom cfg kv.1 p' := rfl
            rw [hexp]
            have hts : transScore cfg e0.1 e0.2.1 kv.1 kv.2 =
                e0.2.1 + stepScore cfg e0.1 kv := transScore_eq_stepScore cfg e0.1 e0.2.1 kv
            rw [← hscore', he11, he121, hs, hts]
            ring
          · have hexp : lastCellFrom e0.1 (kv :: p') = lastCellFrom kv.1 p' := rfl
            rw [hexp, ← he11, hlastc']

lemma candidatesForStep_ne_nil (cfg : PlannerConfig)
    (cells : List (String × CellMetric)) (h : cells ≠ []) :
    candidatesForStep cfg cells ≠ [] := by
  unfold candidatesForStep
  dsimp only
  by_cases hf : cells.filter (fun kv => decide (cfg.sinr_min_db ≤ kv.2.sinr_db)) = []
  · rw [if_pos hf]
    cases cells with
    | nil => exact absurd rfl h
    | cons kv rest => simp [pyMaxBy]
  · rw [if_neg hf]
    exact hf

lemma candidatesForStep_nodup (cfg : PlannerConfig)
    (cells : List (String × CellMetric)) (h : (cells.map Prod.fst).Nodup) :
    ((candidatesForStep cfg cells).map Prod.fst).Nodup := by
  unfold candidatesForStep
  dsimp only
  by_cases hf : cells.filter (fun kv => decide (cfg.sinr_min_db ≤ kv.2.sinr_db)) = []
  · rw [if_pos hf]
    cases hm : pyMaxBy (fun kv => kv.2.sinr_db) cells with
    | none => simp
    | some kv => simp
  · rw [if_neg hf]
    have hsub : List.Sublist
        ((cells.filter (fun kv => decide (cfg.sinr_min_db ≤ kv.2.sinr_db))).map Prod.fst)
        (cells.map Prod.fst) := (List.filter_sublist _).map _
    exact h.sublist hsub

lemma dpFrom_wf (cfg : PlannerConfig) :
    ∀ (cands : List (List (String × CellMetric))) (cur : List DpEntry),
      cur ≠ [] → (∀ cc ∈ cands, cc ≠ []) →
      (cur.map (fun e => e.1)).Nodup →
      (∀ cc ∈ cands, (cc.map Prod.fst).Nodup) →
      ∃ levels lastLvl, dpFrom cfg cur cands = .ok levels ∧
        levels.getLast? = some lastLvl ∧ lastLvl ≠ [] ∧
        (∀ lvl ∈ levels, (lvl.map (fun e => e.1)).Nodup) := by
  intro cands
  induction cands with
  | nil =>
    intro cur hcur _ hnd _
    refine ⟨[cur], cur, rfl, by simp, hcur, ?_⟩
    intro lvl hl
    rw [List.mem_singleton] at hl
    subst hl
    exact hnd
  | cons cc ccs ih =>
    intro cur hcur hcand hnd hcandnd
    obtain ⟨nxt, hnx, hrel⟩ := dpNext_ok_forall2 cfg cur hcur cc
    have hkeys : nxt.map (fun e => e.1) = cc.map Prod.fst :=
      dpNext_keys cfg cur cc nxt hrel
    have hnxt_ne : nxt ≠ [] := by
      intro h
      have hlen := List.Forall₂.length_eq hrel
      rw [h] at hlen
      exact hcand cc (List.mem_cons_self _ _) (List.length_eq_zero.mp hlen)
    have hnxt_nd : (nxt.map (fun e => e.1)).Nodup := by
      rw [hkeys]
      exact hcandnd cc (List.mem_cons_self _ _)
    obtain ⟨levels', lastLvl, hdp', hlast', hlne, hndall⟩ :=
      ih nxt hnxt_ne (fun x hx => hcand x (List.mem_cons_of_mem _ hx)) hnxt_nd
        (fun x hx => hcandnd x (List.mem_cons_of_mem _ hx))
    refine ⟨cur :: levels', lastLvl, ?_, ?_, hlne, ?_⟩
    · unfold dpFrom
      rw [hnx]
      dsimp only
      rw [hdp']
    · rw [getLast?_cons_of_ne_nil _ _ (dpFrom_ne_nil cfg ccs nxt levels' hdp')]
      exact hlast'
    · intro lvl hl
      rcases List.mem_cons.mp hl with rfl | hl2
      · exact hnd
      · exact hndall lvl hl2

/-- C1: for every non-empty waypoint list with a radio-map entry (with
well-formed, duplicate-free cell dicts) at each waypoint's index, the DP
planner returns exactly one cell per waypoint in waypoint-index order —
the returned sequence is the projection of a choice p picking, at each
sorted-waypoint step, a cell from that step's candidate set — and that
choice attains the maximum cumulative pathScore (sum of utilities minus
ho_penalty per cell change) among all sequences drawing from the
candidate sets. -/
theorem C1_dp_optimal (waypoints : List Waypoint) (rm : RadioMap) (cfg : PlannerConfig)
    (hne : waypoints ≠ [])
    (hcov : ∀ w ∈ waypoints, rm.get_cells_for_step w.index ≠ [])
    (hnd : ∀ w ∈ waypoints, ((rm.get_cells_for_step w.index).map Prod.fst).Nodup) :
    ∃ p, List.Forall₂ (fun kv lvl => kv ∈ lvl) p (candLevels rm cfg (sortByIndex waypoints)) ∧
      choose_cells_dp waypoints rm cfg = .ok (p.map Prod.fst) ∧
      p.length = waypoints.length ∧
      ∀ q, List.Forall₂ (fun kv lvl => kv ∈ lvl) q (candLevels rm cfg (sortByIndex waypoints)) →
        pathScore cfg q ≤ pathScore cfg p := by
  have hcov' : ∀ s ∈ (sortByIndex waypoints).map Waypoint.index,
      rm.get_cells_for_step s ≠ [] := by
    intro s hs
    obtain ⟨w, hw, rfl⟩ := List.mem_map.mp hs
    exact hcov w ((List.mem_insertionSort _).mp hw)
  have hbuild := buildLevels_ok rm cfg ((sortByIndex waypoints).map Waypoint.index) hcov'
  have hcand_eq : ((sortByIndex waypoints).map Waypoint.index).map
      (fun s => candidatesForStep cfg (rm.get_cells_for_step s)) =
      candLevels rm cfg (sortByIndex waypoints) := by
    rw [List.map_map]
    rfl
  have hlvl_prop : ∀ lvl ∈ candLevels rm cfg (sortByIndex waypoints),
      lvl ≠ [] ∧ (lvl.map Prod.fst).Nodup := by
    intro lvl hl
    obtain ⟨w, hw, rfl⟩ := List.mem_map.mp hl
    have hw' := (List.mem_insertionSort _).mp hw
    exact ⟨candidatesForStep_ne_nil cfg _ (hcov w hw'),
      candidatesForStep_nodup cfg _ (hnd w hw')⟩
  have hlen_cand : (candLevels rm cfg (sortByIndex waypoints)).length = waypoints.length := by
    unfold candLevels sortByIndex
    rw [List.length_map, List.length_insertionSort]
  cases hws : candLevels rm cfg (sortByIndex waypoints) with
  | nil =>
    exfalso
    rw [hws] at hlen_cand
    exact hne (List.length_eq_zero.mp hlen_cand.symm)
  | cons c0 rest =>
    rw [hws] at hlvl_prop hlen_cand
    have hc0 := hlvl_prop c0 (List.mem_cons_self _ _)
    have hrestp : ∀ cc ∈ rest, cc ≠ [] ∧ (cc.map Prod.fst).Nodup :=
      fun cc hcc => hlvl_prop cc (List.mem_cons_of_mem _ hcc)
    have hinit_ne : dpInit cfg c0 ≠ [] := by
      unfold dpInit
      intro h
      exact hc0.1 (List.map_eq_nil_iff.mp h)
    have hinit_keys : (dpInit cfg c0).map (fun e => e.1) = c0.map Prod.fst := by
      unfold dpInit
      rw [List.map_map]
      rfl
    have hinit_nd : ((dpInit cfg c0).map (fun e => e.1)).Nodup := by
      rw [hinit_keys]
      exact hc0.2
    obtain ⟨levels, lastLvl, hdp, hlastq, hlastne, hndall⟩ :=
      dpFrom_wf cfg rest (dpInit cfg c0) hinit_ne (fun cc hcc => (hrestp cc hcc).1)
        hinit_nd (fun cc hcc => (hrestp cc hcc).2)
    cases hm : pyMaxBy (fun e => e.2.1) lastLvl with
    | none =>
      exfalso
      cases hll : lastLvl with
      | nil => exact hlastne hll
      | cons x xs =>
        rw [hll] at hm
        cases hm
    | some m =>
      obtain ⟨hmmem, hmmax⟩ := pyMaxBy_spec (fun e => e.2.1) lastLvl m hm
      obtain ⟨e0, he0, p', hp', hbt, hscore, hlastcell⟩ :=
        dp_bt cfg rest (dpInit cfg c0) levels lastLvl hdp hlastq hndall m hmmem
      obtain ⟨kv0, hkv0, he0eq⟩ : ∃ kv0 ∈ c0,
          e0 = (kv0.1, cfg.utility kv0.2.sinr_db kv0.2.load, (none : Option String)) := by
        unfold dpInit at he0
        obtain ⟨kv0, hkv0, hkv0e⟩ := List.mem_map.mp he0
        exact ⟨kv0, hkv0, hkv0e.symm⟩
      have hchoose : choose_cells_dp waypoints rm cfg =
          .ok ((kv0 :: p').map Prod.fst) := by
        unfold choose_cells_dp
        have hb2 : buildLevels rm cfg ((sortByIndex waypoints).map Waypoint.index) =
            .ok (c0 :: rest) := by
          rw [hbuild, hcand_eq, hws]
        rw [hb2]
        dsimp only
        rw [hdp]
        dsimp only
        rw [hlastq]
        dsimp only
        rw [hm]
        dsimp only
        rw [hbt]
        have he01 : e0.1 = kv0.1 := by rw [he0eq]
        rw [he01]
        rfl
      refine ⟨kv0 :: p', ?_, hchoose, ?_, ?_⟩
      · exact List.Forall₂.cons hkv0 hp'
      · have hl1 := List.Forall₂.length_eq hp'
        simp only [List.length_cons] at hlen_cand ⊢
        omega
      · intro q hq
        cases hq with
        | cons hkv0' hq' =>
          rename_i kv0' q'
          have he' : (kv0'.1, cfg.utility kv0'.2.sinr_db kv0'.2.load,
              (none : Option String)) ∈ dpInit cfg c0 := by
            unfold dpInit
            exact List.mem_map.mpr ⟨kv0', hkv0', rfl⟩
          obtain ⟨e2, he2, _, hle⟩ :=
            dp_ub cfg rest (dpInit cfg c0) levels lastLvl hdp hlastq _ he' q' hq'
          have hle2 : e2.2.1 ≤ m.2.1 := hmmax e2 he2
          have hq_score : pathScore cfg (kv0' :: q') =
              cfg.utility kv0'.2.sinr_db kv0'.2.load + pathScoreFrom cfg kv0'.1 q' := rfl
          have hp_score : pathScore cfg (kv0 :: p') =
              cfg.utility kv0.2.sinr_db kv0.2.load + pathScoreFrom cfg kv0.1 p' := rfl
          rw [hq_score, hp_score]
          have hscore2 : cfg.utility kv0.2.sinr_db kv0.2.load + pathScoreFrom cfg kv0.1 p' =
              m.2.1 := by
            rw [← hscore, he0eq]
          rw [hscore2]
          calc cfg.utility kv0'.2.sinr_db kv0'.2.load + pathScoreFrom cfg kv0'.1 q'
              ≤ e2.2.1 := hle
            _ ≤ m.2.1 := hle2

/-- C1 witness: two waypoints, two cells with complete radio data. -/
theorem C1_witness :
    ∃ p, List.Forall₂ (fun kv lvl => kv ∈ lvl) p
        (candLevels
          (⟨[(0, [("A", ⟨10, 0⟩), ("B", ⟨7, 0⟩)]),
             (1, [("A", ⟨6, 0⟩), ("B", ⟨9, 0⟩)])]⟩ : RadioMap)
          (⟨-5, 1, 1, 1⟩ : PlannerConfig)
          (sortByIndex [⟨0, 0, 0, 0⟩, ⟨1, 0, 0, 0⟩])) ∧
      choose_cells_dp [⟨0, 0, 0, 0⟩, ⟨1, 0, 0, 0⟩]
          (⟨[(0, [("A", ⟨10, 0⟩), ("B", ⟨7, 0⟩)]),
             (1, [("A", ⟨6, 0⟩), ("B", ⟨9, 0⟩)])]⟩ : RadioMap)
          (⟨-5, 1, 1, 1⟩ : PlannerConfig) = .ok (p.map Prod.fst) ∧
      p.length = ([⟨0, 0, 0, 0⟩, ⟨1, 0, 0, 0⟩] : List Waypoint).length ∧
      ∀ q, List.Forall₂ (fun kv lvl => kv ∈ lvl) q
          (candLevels
            (⟨[(0, [("A", ⟨10, 0⟩), ("B", ⟨7, 0⟩)]),
               (1, [("A", ⟨6, 0⟩), ("B", ⟨9, 0⟩)])]⟩ : RadioMap)
            (⟨-5, 1, 1, 1⟩ : PlannerConfig)
            (sortByIndex [⟨0, 0, 0, 0⟩, ⟨1, 0, 0, 0⟩])) →
        pathScore (⟨-5, 1, 1, 1⟩ : PlannerConfig) q ≤
          pathScore (⟨-5, 1, 1, 1⟩ : PlannerConfig) p :=
  C1_dp_optimal [⟨0, 0, 0, 0⟩, ⟨1, 0, 0, 0⟩]
    (⟨[(0, [("A", ⟨10, 0⟩), ("B", ⟨7, 0⟩)]),
       (1, [("A", ⟨6, 0⟩), ("B", ⟨9, 0⟩)])]⟩ : RadioMap)
    (⟨-5, 1, 1, 1⟩ : PlannerConfig)
    (by decide) (by decide) (by decide)

end UavRc
